import Mathlib

/-!
# Route matching of the meta protocol proxy

A shallow embedding of `src/meta_protocol_proxy/route/route_matcher_impl.cc`:
the construction of route entries from their configuration, the header
predicate, the resolution of a cluster (single or weighted), the request and
response mutations, and the ordered first-match lookup of the route matcher.

Conventions of the embedding:

* `uint64_t` and `uint32_t` values are natural numbers; every addition the
  source performs on a `uint64_t` is written with an explicit `% 2 ^ 64`.
* a constructor that may throw returns `Except EnvoyException _`;
* a call that may end without a value (division by zero, a failed `ASSERT`,
  a not-reached marker) returns `Except Fault _`;
* a nullable `RouteConstSharedPtr` is an `Option`;
* the header utilities of the proxy framework (`HeaderUtility`) are a
  parameter of the development.
-/

namespace MetaProtocolProxy

/-- Exception thrown while route entries are built from their configuration. -/
inductive EnvoyException where
  | missingField (field_name : String)
  | other (what : String)
  deriving DecidableEq, Repr

/-- Ways in which a call can end without producing a value. -/
inductive Fault where
  | divisionByZero
  | assertFailure
  | notReached
  deriving DecidableEq, Repr

/-! ## Configuration messages -/

namespace Config

/-- Message `KeyValue`: one configured mutation. -/
structure KeyValue where
  key : String
  value : String
  deriving DecidableEq, Repr

/-- Message `WeightedCluster.ClusterWeight`. The weight is a wrapped
`UInt32Value`, which may be absent. -/
structure ClusterWeight where
  name : String
  weight : Option Nat
  deriving DecidableEq, Repr

/-- Message `WeightedCluster`. -/
structure WeightedCluster where
  clusters : List ClusterWeight
  deriving DecidableEq, Repr

/-- Tags of the `cluster_specifier` oneof of a route action. -/
inductive ClusterSpecifierCase where
  | kCluster
  | kWeightedClusters
  | CLUSTER_SPECIFIER_NOT_SET
  deriving DecidableEq, Repr

/-- The `cluster_specifier` oneof of a route action. -/
inductive ClusterSpecifier where
  | notSet
  | cluster (name : String)
  | weightedClusters (wc : WeightedCluster)
  deriving DecidableEq, Repr

/-- Message `RouteAction`. -/
structure RouteAction where
  cluster_specifier : ClusterSpecifier
  hash_policy : List String
  deriving DecidableEq, Repr

/-- Accessor `cluster_specifier_case()`. -/
def RouteAction.cluster_specifier_case (a : RouteAction) : ClusterSpecifierCase :=
  match a.cluster_specifier with
  | .notSet => .CLUSTER_SPECIFIER_NOT_SET
  | .cluster _ => .kCluster
  | .weightedClusters _ => .kWeightedClusters

/-- Accessor `cluster()`: the empty string unless the oneof holds a cluster. -/
def RouteAction.cluster (a : RouteAction) : String :=
  match a.cluster_specifier with
  | .cluster name => name
  | _ => ""

/-- Accessor `weighted_clusters()`: the default message unless the oneof
holds a weighted set. -/
def RouteAction.weighted_clusters (a : RouteAction) : WeightedCluster :=
  match a.cluster_specifier with
  | .weightedClusters wc => wc
  | _ => ⟨[]⟩

/-- Message `RouteMatch`: the configured match conditions. -/
structure RouteMatch (HeaderMatcher : Type) where
  metadata : List HeaderMatcher

/-- Message `Route`: one configured rule. -/
structure Route (HeaderMatcher : Type) where
  match_ : RouteMatch HeaderMatcher
  route : RouteAction
  request_mutation : List KeyValue
  response_mutation : List KeyValue

/-- Message `RouteConfiguration`: the ordered rule list. -/
structure RouteConfig (HeaderMatcher : Type) where
  routes : List (Route HeaderMatcher)

end Config

/-! ## Collaborators that the source file calls -/

/-- The header utilities used by the route entries: how one configured
matcher becomes a `HeaderData` (which may throw), and the predicate
`matchHeaders` evaluated on the request headers. -/
structure HeaderUtility (HeaderMatcher HeaderData HeaderMap : Type) where
  headerData : HeaderMatcher → Except EnvoyException HeaderData
  matchHeaders : HeaderMap → List HeaderData → Bool

/-- `HeaderUtility::buildHeaderDataVector`: one `HeaderData` for each
configured matcher, in order; the first exception aborts. -/
def HeaderUtility.buildHeaderDataVector {HeaderMatcher HeaderData HeaderMap : Type}
    (hu : HeaderUtility HeaderMatcher HeaderData HeaderMap) :
    List HeaderMatcher → Except EnvoyException (List HeaderData)
  | [] => .ok []
  | m :: rest =>
    match hu.headerData m with
    | .error ex => .error ex
    | .ok d =>
      match hu.buildHeaderDataVector rest with
      | .error ex => .error ex
      | .ok ds => .ok (d :: ds)

/-- Request metadata: `MetadataImpl` exposes the request headers. -/
structure MetadataImpl (HeaderMap : Type) where
  headers_ : HeaderMap

/-- Accessor `getHeaders()`. -/
def MetadataImpl.getHeaders {HeaderMap : Type} (m : MetadataImpl HeaderMap) : HeaderMap :=
  m.headers_

/-- The caller's mutation target. The alias `Mutation` is declared outside
this source file, as `std::map<std::string, std::string>`; the map is
represented by its lookup function. -/
abbrev Mutation := String → Option String

/-- The empty map. -/
def Mutation.empty : Mutation := fun _ => none

/-- The call `mutation->insert({key, value})`, with the meaning the C++
standard library gives to `insert` on a map: the pair is added when the map
holds no element with that key, and the map is left as it is otherwise. -/
def Mutation.insert (m : Mutation) (key value : String) : Mutation :=
  match m key with
  | some _ => m
  | none => fun k => if k = key then some value else m k

/-- Modelled from the spec: the macro `PROTOBUF_GET_WRAPPED_REQUIRED` is not
part of the source file. A wrapped field is required: its value is returned
when present and a missing-field exception is thrown when it is absent. -/
def PROTOBUF_GET_WRAPPED_REQUIRED (field : Option Nat) (field_name : String) :
    Except EnvoyException Nat :=
  match field with
  | some v => .ok v
  | none => .error (.missingField field_name)

/-! ## Route entries and the route matcher -/

/-- One configured mutation, held by a route entry. -/
structure MutationEntry where
  key_ : String
  value_ : String
  deriving DecidableEq, Repr

/-- Accessor `key()`. -/
def MutationEntry.key (m : MutationEntry) : String := m.key_

/-- Accessor `value()`. -/
def MutationEntry.value (m : MutationEntry) : String := m.value_

/-- The hash policy of an entry, built from the configured fields. -/
structure HashPolicyImpl where
  hash_policy_ : List String
  deriving DecidableEq, Repr

/-- One weighted cluster of a route entry. The `parent_` reference of the
source is carried by the resolved route (`Route.weightedCluster`). -/
structure WeightedClusterEntry where
  cluster_name_ : String
  cluster_weight_ : Nat
  deriving DecidableEq, Repr

/-- Accessor `clusterWeight()`. -/
def WeightedClusterEntry.clusterWeight (w : WeightedClusterEntry) : Nat := w.cluster_weight_

/-- Accessor `clusterName()` of a weighted cluster. -/
def WeightedClusterEntry.clusterName (w : WeightedClusterEntry) : String := w.cluster_name_

/-- Constructor `WeightedClusterEntry(parent, cluster)`: throws when the
weight is absent. -/
def WeightedClusterEntry.new (cluster : Config.ClusterWeight) :
    Except EnvoyException WeightedClusterEntry :=
  match PROTOBUF_GET_WRAPPED_REQUIRED cluster.weight "weight" with
  | .error ex => .error ex
  | .ok w => .ok ⟨cluster.name, w⟩

/-- The members of `RouteEntryImplBase`. -/
structure RouteEntryImplBase (HeaderData : Type) where
  cluster_name_ : String
  config_headers_ : List HeaderData
  weighted_clusters_ : List WeightedClusterEntry
  total_cluster_weight_ : Nat
  request_mutation_ : List MutationEntry
  response_mutation_ : List MutationEntry
  hash_policy_ : Option HashPolicyImpl

/-- A resolved route, the pointee of a `RouteConstSharedPtr`: either a route
entry itself (`shared_from_this()`), or the weighted cluster entry stored at
position `index` of the list `weighted_clusters_` of its parent. -/
inductive Route (HeaderData : Type) where
  | entry (self : RouteEntryImplBase HeaderData)
  | weightedCluster (parent : RouteEntryImplBase HeaderData) (index : Nat)
      (cluster : WeightedClusterEntry)

/-- A nullable shared pointer to a resolved route. -/
abbrev RouteConstSharedPtr (HeaderData : Type) := Option (Route HeaderData)

/-- The loop of the constructor over the configured weighted clusters: each
cluster is appended to `weighted_clusters_` and its weight is added to the
64-bit `total_cluster_weight_`. -/
def RouteEntryImplBase.addWeightedClusters :
    List Config.ClusterWeight → List WeightedClusterEntry → Nat →
      Except EnvoyException (List WeightedClusterEntry × Nat)
  | [], weighted_clusters, total_cluster_weight => .ok (weighted_clusters, total_cluster_weight)
  | cluster :: rest, weighted_clusters, total_cluster_weight =>
    match WeightedClusterEntry.new cluster with
    | .error ex => .error ex
    | .ok entry =>
      addWeightedClusters rest (weighted_clusters ++ [entry])
        ((total_cluster_weight + entry.clusterWeight) % 2 ^ 64)

/-- Constructor `RouteEntryImplBase(route)`. In the single-cluster case the
source leaves `total_cluster_weight_` unassigned and never reads it; the
embedding stores `0` there. -/
def RouteEntryImplBase.new {HeaderMatcher HeaderData HeaderMap : Type}
    (hu : HeaderUtility HeaderMatcher HeaderData HeaderMap)
    (route : Config.Route HeaderMatcher) :
    Except EnvoyException (RouteEntryImplBase HeaderData) :=
  match hu.buildHeaderDataVector route.match_.metadata with
  | .error ex => .error ex
  | .ok config_headers =>
    let weighted :=
      if route.route.cluster_specifier_case = .kWeightedClusters then
        addWeightedClusters route.route.weighted_clusters.clusters [] 0
      else
        .ok ([], 0)
    match weighted with
    | .error ex => .error ex
    | .ok (weighted_clusters, total_cluster_weight) =>
      .ok
        { cluster_name_ := route.route.cluster
          config_headers_ := config_headers
          weighted_clusters_ := weighted_clusters
          total_cluster_weight_ := total_cluster_weight
          request_mutation_ :=
            route.request_mutation.map (fun keyValue => ⟨keyValue.key, keyValue.value⟩)
          response_mutation_ :=
            route.response_mutation.map (fun keyValue => ⟨keyValue.key, keyValue.value⟩)
          hash_policy_ :=
            if route.route.hash_policy.length > 0 then some ⟨route.route.hash_policy⟩
            else none }

/-- Method `RouteEntryImplBase::clusterName`. -/
def RouteEntryImplBase.clusterName {HeaderData : Type} (e : RouteEntryImplBase HeaderData) :
    String :=
  e.cluster_name_

/-- Method `RouteEntryImplBase::requestMutation`: every configured pair is
inserted into the target, in configured order. -/
def RouteEntryImplBase.requestMutation {HeaderData : Type} (e : RouteEntryImplBase HeaderData)
    (mutation : Mutation) : Mutation :=
  e.request_mutation_.foldl (fun m keyValue => m.insert keyValue.key keyValue.value) mutation

/-- Method `RouteEntryImplBase::responseMutation`. -/
def RouteEntryImplBase.responseMutation {HeaderData : Type} (e : RouteEntryImplBase HeaderData)
    (mutation : Mutation) : Mutation :=
  e.response_mutation_.foldl (fun m keyValue => m.insert keyValue.key keyValue.value) mutation

/-- The walk of `pickCluster` over the weighted clusters from position
`index` on, with `begin` the cumulative weight of the clusters before it. -/
def WeightedClusterUtil.pickClusterLoop (total_cluster_weight selected_value : Nat)
    (ignore_overflow : Bool) :
    List WeightedClusterEntry → Nat → Nat → Except Fault (Nat × WeightedClusterEntry)
  | [], _, _ => .error .notReached
  | cluster :: rest, index, begin_ =>
    let end_ := (begin_ + cluster.clusterWeight) % 2 ^ 64
    if !ignore_overflow && !decide (end_ ≤ total_cluster_weight) then
      .error .assertFailure
    else if begin_ ≤ selected_value ∧ selected_value < end_ then
      .ok (index, cluster)
    else
      pickClusterLoop total_cluster_weight selected_value ignore_overflow rest (index + 1) end_

/-- Modelled from the spec: `WeightedClusterUtil::pickCluster` is not part of
the source file. The random value is mapped into `[0, total_weight)` by
modulo, and the ordered list is walked accumulating weights until the
cumulative sum exceeds the mapped value; that entry (with its position) is
returned. Unless `ignore_overflow` is set, the walk asserts that the
cumulative sum does not exceed the total; a walk that finds no entry ends in
the not-reached marker, and a zero total has no defined modulo. -/
def WeightedClusterUtil.pickCluster (weighted_clusters : List WeightedClusterEntry)
    (total_cluster_weight random_value : Nat) (ignore_overflow : Bool) :
    Except Fault (Nat × WeightedClusterEntry) :=
  if total_cluster_weight = 0 then .error .divisionByZero
  else
    WeightedClusterUtil.pickClusterLoop total_cluster_weight
      (random_value % total_cluster_weight) ignore_overflow weighted_clusters 0 0

/-- Method `RouteEntryImplBase::clusterEntry`. -/
def RouteEntryImplBase.clusterEntry {HeaderData : Type} (e : RouteEntryImplBase HeaderData)
    (random_value : Nat) : Except Fault (RouteConstSharedPtr HeaderData) :=
  if e.weighted_clusters_.isEmpty then
    .ok (some (.entry e))
  else
    match WeightedClusterUtil.pickCluster e.weighted_clusters_ e.total_cluster_weight_
        random_value false with
    | .error f => .error f
    | .ok (index, cluster) => .ok (some (.weightedCluster e index cluster))

/-- Method `RouteEntryImplBase::headersMatch`. -/
def RouteEntryImplBase.headersMatch {HeaderMatcher HeaderData HeaderMap : Type}
    (hu : HeaderUtility HeaderMatcher HeaderData HeaderMap)
    (e : RouteEntryImplBase HeaderData) (metadata : MetadataImpl HeaderMap) : Bool :=
  if e.config_headers_.isEmpty then
    true
  else
    hu.matchHeaders metadata.getHeaders e.config_headers_

/-- Method `clusterName()` of a resolved route. -/
def Route.clusterName {HeaderData : Type} : Route HeaderData → String
  | .entry self => self.clusterName
  | .weightedCluster _ _ cluster => cluster.clusterName

/-- Class `RouteEntryImpl` adds no member to its base. -/
abbrev RouteEntryImpl (HeaderData : Type) := RouteEntryImplBase HeaderData

/-- Constructor `RouteEntryImpl(route)`. -/
def RouteEntryImpl.new {HeaderMatcher HeaderData HeaderMap : Type}
    (hu : HeaderUtility HeaderMatcher HeaderData HeaderMap)
    (route : Config.Route HeaderMatcher) : Except EnvoyException (RouteEntryImpl HeaderData) :=
  RouteEntryImplBase.new hu route

/-- Method `RouteEntryImpl::matches`. -/
def RouteEntryImpl.matches {HeaderMatcher HeaderData HeaderMap : Type}
    (hu : HeaderUtility HeaderMatcher HeaderData HeaderMap)
    (e : RouteEntryImpl HeaderData) (metadata : MetadataImpl HeaderMap) (random_value : Nat) :
    Except Fault (RouteConstSharedPtr HeaderData) :=
  if !RouteEntryImplBase.headersMatch hu e metadata then
    .ok none
  else
    RouteEntryImplBase.clusterEntry e random_value

/-- The members of `RouteMatcherImpl`. -/
structure RouteMatcherImpl (HeaderData : Type) where
  routes_ : List (RouteEntryImpl HeaderData)

/-- The loop of the constructor of the matcher: one entry for each rule, in
order; an exception of any entry aborts the whole construction. -/
def RouteMatcherImpl.addRoutes {HeaderMatcher HeaderData HeaderMap : Type}
    (hu : HeaderUtility HeaderMatcher HeaderData HeaderMap) :
    List (Config.Route HeaderMatcher) → List (RouteEntryImpl HeaderData) →
      Except EnvoyException (List (RouteEntryImpl HeaderData))
  | [], routes => .ok routes
  | route :: rest, routes =>
    match RouteEntryImpl.new hu route with
    | .error ex => .error ex
    | .ok entry => addRoutes hu rest (routes ++ [entry])

/-- Constructor `RouteMatcherImpl(config, context)`. -/
def RouteMatcherImpl.new {HeaderMatcher HeaderData HeaderMap : Type}
    (hu : HeaderUtility HeaderMatcher HeaderData HeaderMap)
    (config : Config.RouteConfig HeaderMatcher) :
    Except EnvoyException (RouteMatcherImpl HeaderData) :=
  match RouteMatcherImpl.addRoutes hu config.routes [] with
  | .error ex => .error ex
  | .ok routes => .ok ⟨routes⟩

/-- The loop of `RouteMatcherImpl::route` over the remaining entries. -/
def RouteMatcherImpl.routeLoop {HeaderMatcher HeaderData HeaderMap : Type}
    (hu : HeaderUtility HeaderMatcher HeaderData HeaderMap)
    (metadata : MetadataImpl HeaderMap) (random_value : Nat) :
    List (RouteEntryImpl HeaderData) → Except Fault (RouteConstSharedPtr HeaderData)
  | [] => .ok none
  | route :: rest =>
    match RouteEntryImpl.matches hu route metadata random_value with
    | .error f => .error f
    | .ok (some route_entry) => .ok (some route_entry)
    | .ok none => routeLoop hu metadata random_value rest

/-- Method `RouteMatcherImpl::route`. -/
def RouteMatcherImpl.route {HeaderMatcher HeaderData HeaderMap : Type}
    (hu : HeaderUtility HeaderMatcher HeaderData HeaderMap)
    (m : RouteMatcherImpl HeaderData) (metadata : MetadataImpl HeaderMap) (random_value : Nat) :
    Except Fault (RouteConstSharedPtr HeaderData) :=
  RouteMatcherImpl.routeLoop hu metadata random_value m.routes_


/-! ## Example configurations -/

/-- A concrete header utility: a matcher is a required key/value pair, and the
predicate holds when every required pair is among the request headers. -/
def exampleHeaders :
    HeaderUtility (String × String) (String × String) (List (String × String)) where
  headerData := fun m => .ok m
  matchHeaders := fun headers config_headers => config_headers.all (fun c => headers.contains c)

/-- An entry that requires the header `env=prod` and routes to `prod`. -/
def prodEntry : RouteEntryImpl (String × String) where
  cluster_name_ := "prod"
  config_headers_ := [("env", "prod")]
  weighted_clusters_ := []
  total_cluster_weight_ := 0
  request_mutation_ := []
  response_mutation_ := []
  hash_policy_ := none

/-- A catch-all entry that routes to `default`. -/
def defaultEntry : RouteEntryImpl (String × String) where
  cluster_name_ := "default"
  config_headers_ := []
  weighted_clusters_ := []
  total_cluster_weight_ := 0
  request_mutation_ := []
  response_mutation_ := []
  hash_policy_ := none

/-- A request whose only header is `env=staging`. -/
def stagingRequest : MetadataImpl (List (String × String)) := ⟨[("env", "staging")]⟩

/-- A rule with a single cluster whose request and response mutation lists
both configure the key `k` twice. -/
def duplicateKeyRule : Config.Route (String × String) where
  match_ := ⟨[]⟩
  route := ⟨.cluster "A", []⟩
  request_mutation := [⟨"k", "v1"⟩, ⟨"k", "v2"⟩]
  response_mutation := [⟨"k", "v1"⟩, ⟨"k", "v2"⟩]

/-- The entry constructed from `duplicateKeyRule`. -/
def duplicateKeyEntry : RouteEntryImplBase (String × String) where
  cluster_name_ := "A"
  config_headers_ := []
  weighted_clusters_ := []
  total_cluster_weight_ := 0
  request_mutation_ := [⟨"k", "v1"⟩, ⟨"k", "v2"⟩]
  response_mutation_ := [⟨"k", "v1"⟩, ⟨"k", "v2"⟩]
  hash_policy_ := none

/-- A mutation target of the caller that already maps `k` to `base`. -/
def baselineTarget : Mutation := fun key => if key = "k" then some "base" else none

/-- A weighted rule whose second cluster has no weight. -/
def missingWeightRule : Config.Route (String × String) where
  match_ := ⟨[]⟩
  route := ⟨.weightedClusters ⟨[⟨"A", some 1⟩, ⟨"B", none⟩]⟩, []⟩
  request_mutation := []
  response_mutation := []

/-- A weighted rule with an empty cluster list. -/
def emptyWeightedRule : Config.Route (String × String) where
  match_ := ⟨[]⟩
  route := ⟨.weightedClusters ⟨[]⟩, []⟩
  request_mutation := []
  response_mutation := []

/-- The entry constructed from `emptyWeightedRule`. -/
def emptyWeightedEntry : RouteEntryImplBase (String × String) where
  cluster_name_ := ""
  config_headers_ := []
  weighted_clusters_ := []
  total_cluster_weight_ := 0
  request_mutation_ := []
  response_mutation_ := []
  hash_policy_ := none

/-- A weighted rule whose only cluster has weight zero. -/
def zeroWeightRule : Config.Route (String × String) where
  match_ := ⟨[]⟩
  route := ⟨.weightedClusters ⟨[⟨"A", some 0⟩]⟩, []⟩
  request_mutation := []
  response_mutation := []

/-- The entry constructed from `zeroWeightRule`. -/
def zeroWeightEntry : RouteEntryImplBase (String × String) where
  cluster_name_ := ""
  config_headers_ := []
  weighted_clusters_ := [⟨"A", 0⟩]
  total_cluster_weight_ := 0
  request_mutation_ := []
  response_mutation_ := []
  hash_policy_ := none

/-- A rule with no match condition and the single cluster `A`. -/
def singleClusterRule : Config.Route (String × String) where
  match_ := ⟨[]⟩
  route := ⟨.cluster "A", []⟩
  request_mutation := []
  response_mutation := []

/-- The entry constructed from the weighted clusters `A:30` and `B:70`. -/
def weightedEntry : RouteEntryImplBase (String × String) where
  cluster_name_ := ""
  config_headers_ := []
  weighted_clusters_ := [⟨"A", 30⟩, ⟨"B", 70⟩]
  total_cluster_weight_ := 100
  request_mutation_ := []
  response_mutation_ := []
  hash_policy_ := none

/-- The rule with the weighted clusters `A:30` and `B:70`. -/
def weightedRule : Config.Route (String × String) where
  match_ := ⟨[]⟩
  route := ⟨.weightedClusters ⟨[⟨"A", some 30⟩, ⟨"B", some 70⟩]⟩, []⟩
  request_mutation := []
  response_mutation := []

/-- A single-cluster rule that configures one hash-policy field. -/
def hashPolicyRule : Config.Route (String × String) where
  match_ := ⟨[]⟩
  route := ⟨.cluster "A", ["user"]⟩
  request_mutation := []
  response_mutation := []

/-- The entry constructed from `hashPolicyRule`. -/
def hashPolicyEntry : RouteEntryImplBase (String × String) where
  cluster_name_ := "A"
  config_headers_ := []
  weighted_clusters_ := []
  total_cluster_weight_ := 0
  request_mutation_ := []
  response_mutation_ := []
  hash_policy_ := some ⟨["user"]⟩

/-! ## Lemmas on the route matcher -/

section Matcher

variable {HeaderMatcher HeaderData HeaderMap : Type}

theorem clusterEntry_ne_null (e : RouteEntryImplBase HeaderData) (r : Nat) :
    e.clusterEntry r ≠ .ok none := by
  unfold RouteEntryImplBase.clusterEntry
  split
  · simp
  · split <;> simp

theorem matches_of_headersMatch (hu : HeaderUtility HeaderMatcher HeaderData HeaderMap)
    (e : RouteEntryImpl HeaderData) (md : MetadataImpl HeaderMap) (r : Nat)
    (h : RouteEntryImplBase.headersMatch hu e md = true) :
    RouteEntryImpl.matches hu e md r = RouteEntryImplBase.clusterEntry e r := by
  simp [RouteEntryImpl.matches, h]

theorem matches_of_not_headersMatch (hu : HeaderUtility HeaderMatcher HeaderData HeaderMap)
    (e : RouteEntryImpl HeaderData) (md : MetadataImpl HeaderMap) (r : Nat)
    (h : RouteEntryImplBase.headersMatch hu e md = false) :
    RouteEntryImpl.matches hu e md r = .ok none := by
  simp [RouteEntryImpl.matches, h]

theorem routeLoop_cons_of_headersMatch (hu : HeaderUtility HeaderMatcher HeaderData HeaderMap)
    (e : RouteEntryImpl HeaderData) (rest : List (RouteEntryImpl HeaderData))
    (md : MetadataImpl HeaderMap) (r : Nat)
    (h : RouteEntryImplBase.headersMatch hu e md = true) :
    RouteMatcherImpl.routeLoop hu md r (e :: rest) = RouteEntryImplBase.clusterEntry e r := by
  have hne := clusterEntry_ne_null e r
  rw [RouteMatcherImpl.routeLoop, matches_of_headersMatch hu e md r h]
  cases hc : RouteEntryImplBase.clusterEntry e r with
  | error f => rfl
  | ok p =>
    cases p with
    | none => exact absurd hc hne
    | some x => rfl

theorem routeLoop_append_of_no_match (hu : HeaderUtility HeaderMatcher HeaderData HeaderMap)
    (pre rest : List (RouteEntryImpl HeaderData)) (md : MetadataImpl HeaderMap) (r : Nat)
    (h : ∀ x ∈ pre, RouteEntryImplBase.headersMatch hu x md = false) :
    RouteMatcherImpl.routeLoop hu md r (pre ++ rest) = RouteMatcherImpl.routeLoop hu md r rest := by
  induction pre with
  | nil => rfl
  | cons a pre ih =>
    have ha : RouteEntryImplBase.headersMatch hu a md = false := h a (List.mem_cons_self a pre)
    have hpre : ∀ x ∈ pre, RouteEntryImplBase.headersMatch hu x md = false :=
      fun x hx => h x (List.mem_cons_of_mem a hx)
    rw [List.cons_append, RouteMatcherImpl.routeLoop, matches_of_not_headersMatch hu a md r ha]
    exact ih hpre

theorem exists_first_match (hu : HeaderUtility HeaderMatcher HeaderData HeaderMap)
    (md : MetadataImpl HeaderMap) (routes : List (RouteEntryImpl HeaderData))
    (h : ∃ x ∈ routes, RouteEntryImplBase.headersMatch hu x md = true) :
    ∃ pre e post, routes = pre ++ e :: post ∧
      (∀ x ∈ pre, RouteEntryImplBase.headersMatch hu x md = false) ∧
      RouteEntryImplBase.headersMatch hu e md = true := by
  induction routes with
  | nil =>
    obtain ⟨x, hx, _⟩ := h
    cases hx
  | cons a routes ih =>
    cases ha : RouteEntryImplBase.headersMatch hu a md with
    | true => exact ⟨[], a, routes, rfl, by simp, ha⟩
    | false =>
      have h2 : ∃ x ∈ routes, RouteEntryImplBase.headersMatch hu x md = true := by
        obtain ⟨x, hx, hm⟩ := h
        rcases List.mem_cons.1 hx with rfl | hx
        · rw [ha] at hm; cases hm
        · exact ⟨x, hx, hm⟩
      obtain ⟨pre, e, post, hsplit, hpre, he⟩ := ih h2
      refine ⟨a :: pre, e, post, by simp [hsplit], ?_, he⟩
      intro x hx
      rcases List.mem_cons.1 hx with rfl | hx
      · exact ha
      · exact hpre x hx

end Matcher

/-! ## First match wins -/

section FirstMatch

variable {HeaderMatcher HeaderData HeaderMap : Type}

/-- C1: whenever some entry of the rule list matches the metadata, the list
splits at its first matching entry, `route` returns exactly `clusterEntry` of
that entry for the given random value, and the result is the same whatever
entries follow it. -/
theorem route_returns_first_match (hu : HeaderUtility HeaderMatcher HeaderData HeaderMap)
    (m : RouteMatcherImpl HeaderData) (md : MetadataImpl HeaderMap) (r : Nat)
    (h : ∃ x ∈ m.routes_, RouteEntryImplBase.headersMatch hu x md = true) :
    ∃ pre e post, m.routes_ = pre ++ e :: post ∧
      (∀ x ∈ pre, RouteEntryImplBase.headersMatch hu x md = false) ∧
      RouteEntryImplBase.headersMatch hu e md = true ∧
      RouteMatcherImpl.route hu m md r = RouteEntryImplBase.clusterEntry e r ∧
      ∀ later : List (RouteEntryImpl HeaderData),
        RouteMatcherImpl.route hu ⟨pre ++ e :: later⟩ md r =
          RouteEntryImplBase.clusterEntry e r := by
  obtain ⟨pre, e, post, hsplit, hpre, he⟩ := exists_first_match hu md m.routes_ h
  have key : ∀ later : List (RouteEntryImpl HeaderData),
      RouteMatcherImpl.routeLoop hu md r (pre ++ e :: later) =
        RouteEntryImplBase.clusterEntry e r := by
    intro later
    rw [routeLoop_append_of_no_match hu pre (e :: later) md r hpre]
    exact routeLoop_cons_of_headersMatch hu e later md r he
  refine ⟨pre, e, post, hsplit, hpre, he, ?_, ?_⟩
  · unfold RouteMatcherImpl.route
    rw [hsplit]
    exact key post
  · intro later
    exact key later

/-- Scenario: with an entry requiring `env=prod` followed by a catch-all
entry, a request with `env=staging` has a matching entry, and `route` returns
`clusterEntry` of the first matching entry. -/
theorem route_returns_first_match_witness :
    (∃ x ∈ (⟨[prodEntry, defaultEntry]⟩ : RouteMatcherImpl (String × String)).routes_,
      RouteEntryImplBase.headersMatch exampleHeaders x stagingRequest = true) ∧
    ∃ pre e post,
      (⟨[prodEntry, defaultEntry]⟩ : RouteMatcherImpl (String × String)).routes_ =
        pre ++ e :: post ∧
      (∀ x ∈ pre, RouteEntryImplBase.headersMatch exampleHeaders x stagingRequest = false) ∧
      RouteEntryImplBase.headersMatch exampleHeaders e stagingRequest = true ∧
      RouteMatcherImpl.route exampleHeaders ⟨[prodEntry, defaultEntry]⟩ stagingRequest 7 =
        RouteEntryImplBase.clusterEntry e 7 ∧
      ∀ later : List (RouteEntryImpl (String × String)),
        RouteMatcherImpl.route exampleHeaders ⟨pre ++ e :: later⟩ stagingRequest 7 =
          RouteEntryImplBase.clusterEntry e 7 :=
  ⟨⟨defaultEntry, by simp, by decide⟩,
    route_returns_first_match exampleHeaders ⟨[prodEntry, defaultEntry]⟩ stagingRequest 7
      ⟨defaultEntry, by simp, by decide⟩⟩

/-- C3: on an empty rule list, and on any rule list none of whose entries
matches the metadata, `route` returns the null route and no fault. -/
theorem route_null_when_no_match (hu : HeaderUtility HeaderMatcher HeaderData HeaderMap)
    (m : RouteMatcherImpl HeaderData) (md : MetadataImpl HeaderMap) (r : Nat) :
    RouteMatcherImpl.route hu (⟨[]⟩ : RouteMatcherImpl HeaderData) md r = .ok none ∧
    ((∀ x ∈ m.routes_, RouteEntryImplBase.headersMatch hu x md = false) →
      RouteMatcherImpl.route hu m md r = .ok none) := by
  refine ⟨rfl, ?_⟩
  intro h
  have := routeLoop_append_of_no_match hu m.routes_ [] md r h
  rw [List.append_nil] at this
  unfold RouteMatcherImpl.route
  rw [this]
  rfl

/-- Scenario: a request with `env=staging` against the single entry
requiring `env=prod` resolves to no route. -/
theorem route_null_when_no_match_witness :
    (∀ x ∈ (⟨[prodEntry]⟩ : RouteMatcherImpl (String × String)).routes_,
      RouteEntryImplBase.headersMatch exampleHeaders x stagingRequest = false) ∧
    RouteMatcherImpl.route exampleHeaders ⟨[prodEntry]⟩ stagingRequest 7 = .ok none :=
  ⟨by simp; decide,
    (route_null_when_no_match exampleHeaders ⟨[prodEntry]⟩ stagingRequest 7).2
      (by simp; decide)⟩

end FirstMatch

/-! ## Mutations -/

section Mutations

theorem Mutation.insert_of_some (m : Mutation) (key value k b : String) (h : m k = some b) :
    m.insert key value k = some b := by
  unfold Mutation.insert
  cases hk : m key with
  | some x => simpa using h
  | none =>
    have hne : k ≠ key := by
      intro heq
      rw [heq, hk] at h
      cases h
    simp [hne, h]

theorem Mutation.insert_of_none (m : Mutation) (key value : String) (h : m key = none) :
    m.insert key value key = some value := by
  unfold Mutation.insert
  simp [h]

theorem Mutation.insert_of_ne (m : Mutation) (key value k : String) (h : key ≠ k)
    (hk : m k = none) : m.insert key value k = none := by
  unfold Mutation.insert
  cases hkey : m key with
  | some x => simpa using hk
  | none =>
    have hne : k ≠ key := fun heq => h heq.symm
    simp [hne, hk]

theorem foldl_insert_of_some (l : List MutationEntry) (m : Mutation) (k b : String)
    (h : m k = some b) :
    l.foldl (fun m keyValue => m.insert keyValue.key keyValue.value) m k = some b := by
  induction l generalizing m with
  | nil => exact h
  | cons a l ih =>
    rw [List.foldl_cons]
    exact ih _ (Mutation.insert_of_some m a.key a.value k b h)

theorem foldl_insert_first (pre post : List MutationEntry) (m : Mutation) (k v : String)
    (hm : m k = none) (hpre : ∀ x ∈ pre, x.key ≠ k) :
    (pre ++ ⟨k, v⟩ :: post).foldl (fun m keyValue => m.insert keyValue.key keyValue.value) m k
      = some v := by
  induction pre generalizing m with
  | nil =>
    rw [List.nil_append, List.foldl_cons]
    exact foldl_insert_of_some post _ k v (Mutation.insert_of_none m k v hm)
  | cons a pre ih =>
    rw [List.cons_append, List.foldl_cons]
    refine ih _ ?_ (fun x hx => hpre x (List.mem_cons_of_mem a hx))
    exact Mutation.insert_of_ne m a.key a.value k (hpre a (List.mem_cons_self a pre)) hm

variable {HeaderData : Type}

/-- C4, as stated, fails: the entry constructed from a rule whose request and
response mutation lists are `[(k, v1), (k, v2)]`, applied to the empty target,
leaves `k` mapped to `v1` and not to `v2`. -/
theorem mutation_last_write_wins_counterexample :
    RouteEntryImplBase.new exampleHeaders duplicateKeyRule = .ok duplicateKeyEntry ∧
    duplicateKeyEntry.requestMutation Mutation.empty "k" = some "v1" ∧
    duplicateKeyEntry.requestMutation Mutation.empty "k" ≠ some "v2" ∧
    duplicateKeyEntry.responseMutation Mutation.empty "k" = some "v1" ∧
    duplicateKeyEntry.responseMutation Mutation.empty "k" ≠ some "v2" := by
  refine ⟨rfl, ?_, ?_, ?_, ?_⟩ <;> decide

/-- C4, amended: mutation application is first-write-wins on duplicate keys
within one entry. When the request (or response) mutation list holds a pair
`(k, v)` with no earlier pair for `k`, applying it to the empty target leaves
`k` mapped to `v`, whatever pairs for `k` follow. -/
theorem mutation_first_write_wins (e : RouteEntryImplBase HeaderData) (k v : String)
    (pre post : List MutationEntry) (hpre : ∀ x ∈ pre, x.key ≠ k) :
    (e.request_mutation_ = pre ++ ⟨k, v⟩ :: post →
      e.requestMutation Mutation.empty k = some v) ∧
    (e.response_mutation_ = pre ++ ⟨k, v⟩ :: post →
      e.responseMutation Mutation.empty k = some v) := by
  constructor
  · intro h
    unfold RouteEntryImplBase.requestMutation
    rw [h]
    exact foldl_insert_first pre post Mutation.empty k v rfl hpre
  · intro h
    unfold RouteEntryImplBase.responseMutation
    rw [h]
    exact foldl_insert_first pre post Mutation.empty k v rfl hpre

/-- Scenario: the mutation list `[(k, v1), (k, v2)]` applied to the empty
target leaves `k` mapped to `v1`. -/
theorem mutation_first_write_wins_witness :
    (∀ x ∈ ([] : List MutationEntry), x.key ≠ "k") ∧
    duplicateKeyEntry.request_mutation_ = [] ++ ⟨"k", "v1"⟩ :: [⟨"k", "v2"⟩] ∧
    duplicateKeyEntry.response_mutation_ = [] ++ ⟨"k", "v1"⟩ :: [⟨"k", "v2"⟩] ∧
    duplicateKeyEntry.requestMutation Mutation.empty "k" = some "v1" ∧
    duplicateKeyEntry.responseMutation Mutation.empty "k" = some "v1" :=
  ⟨by simp, rfl, rfl,
    (mutation_first_write_wins duplicateKeyEntry "k" "v1" [] [⟨"k", "v2"⟩] (by simp)).1 rfl,
    (mutation_first_write_wins duplicateKeyEntry "k" "v1" [] [⟨"k", "v2"⟩] (by simp)).2 rfl⟩

/-- C10, as stated, fails: a target that already maps `k` to `base` still maps
`k` to `base` after the request (or response) mutation of an entry that
configures `v1` and `v2` for `k`. -/
theorem mutation_overrides_baseline_counterexample :
    baselineTarget "k" = some "base" ∧
    duplicateKeyEntry.requestMutation baselineTarget "k" = some "base" ∧
    (∀ keyValue ∈ duplicateKeyEntry.request_mutation_,
      duplicateKeyEntry.requestMutation baselineTarget "k" ≠ some keyValue.value) ∧
    duplicateKeyEntry.responseMutation baselineTarget "k" = some "base" ∧
    (∀ keyValue ∈ duplicateKeyEntry.response_mutation_,
      duplicateKeyEntry.responseMutation baselineTarget "k" ≠ some keyValue.value) := by
  refine ⟨by decide, by decide, ?_, by decide, ?_⟩
  · intro keyValue h
    simp [duplicateKeyEntry] at h
    rcases h with rfl | rfl <;> decide
  · intro keyValue h
    simp [duplicateKeyEntry] at h
    rcases h with rfl | rfl <;> decide

/-- C10, amended: the caller's baseline mutation state is kept. For every
target that already holds the key `k`, the target maps `k` to its baseline
value after `requestMutation` and after `responseMutation`, whatever the entry
configures for `k`. -/
theorem mutation_keeps_baseline (e : RouteEntryImplBase HeaderData) (target : Mutation)
    (k b : String) (h : target k = some b) :
    e.requestMutation target k = some b ∧ e.responseMutation target k = some b :=
  ⟨foldl_insert_of_some e.request_mutation_ target k b h,
    foldl_insert_of_some e.response_mutation_ target k b h⟩

/-- Scenario: the target holding `k -> base` keeps that value under the
mutation list `[(k, v1), (k, v2)]`. -/
theorem mutation_keeps_baseline_witness :
    baselineTarget "k" = some "base" ∧
    duplicateKeyEntry.requestMutation baselineTarget "k" = some "base" ∧
    duplicateKeyEntry.responseMutation baselineTarget "k" = some "base" :=
  ⟨by decide, mutation_keeps_baseline duplicateKeyEntry baselineTarget "k" "base" (by decide)⟩

end Mutations

/-! ## Construction -/

section Construction

variable {HeaderMatcher HeaderData HeaderMap : Type}

theorem addWeightedClusters_error (cs : List Config.ClusterWeight)
    (h : ∃ c ∈ cs, c.weight = none) (acc : List WeightedClusterEntry) (total : Nat) :
    RouteEntryImplBase.addWeightedClusters cs acc total = .error (.missingField "weight") := by
  induction cs generalizing acc total with
  | nil =>
    obtain ⟨c, hc, _⟩ := h
    cases hc
  | cons a cs ih =>
    cases hw : a.weight with
    | none =>
      simp [RouteEntryImplBase.addWeightedClusters, WeightedClusterEntry.new,
        PROTOBUF_GET_WRAPPED_REQUIRED, hw]
    | some w =>
      have h2 : ∃ c ∈ cs, c.weight = none := by
        obtain ⟨c, hc, hn⟩ := h
        rcases List.mem_cons.1 hc with rfl | hc
        · rw [hw] at hn; cases hn
        · exact ⟨c, hc, hn⟩
      simp only [RouteEntryImplBase.addWeightedClusters, WeightedClusterEntry.new,
        PROTOBUF_GET_WRAPPED_REQUIRED, hw]
      exact ih h2 _ _

theorem addRoutes_error (hu : HeaderUtility HeaderMatcher HeaderData HeaderMap)
    (rules : List (Config.Route HeaderMatcher))
    (h : ∃ rule ∈ rules, ∃ ex, RouteEntryImpl.new hu rule = .error ex)
    (acc : List (RouteEntryImpl HeaderData)) :
    ∃ ex, RouteMatcherImpl.addRoutes hu rules acc = .error ex := by
  induction rules generalizing acc with
  | nil =>
    obtain ⟨c, hc, _⟩ := h
    cases hc
  | cons a rules ih =>
    cases ha : RouteEntryImpl.new hu a with
    | error ex => exact ⟨ex, by simp [RouteMatcherImpl.addRoutes, ha]⟩
    | ok entry =>
      have h2 : ∃ rule ∈ rules, ∃ ex, RouteEntryImpl.new hu rule = .error ex := by
        obtain ⟨c, hc, ex, hn⟩ := h
        rcases List.mem_cons.1 hc with rfl | hc
        · rw [ha] at hn; cases hn
        · exact ⟨c, hc, ex, hn⟩
      obtain ⟨ex, hex⟩ := ih h2 (acc ++ [entry])
      exact ⟨ex, by simp [RouteMatcherImpl.addRoutes, ha, hex]⟩

/-- The members of a successfully constructed entry, read off the rule. -/
theorem new_ok_members (hu : HeaderUtility HeaderMatcher HeaderData HeaderMap)
    (rule : Config.Route HeaderMatcher) (e : RouteEntryImplBase HeaderData)
    (h : RouteEntryImplBase.new hu rule = .ok e) :
    hu.buildHeaderDataVector rule.match_.metadata = .ok e.config_headers_ ∧
    (if rule.route.cluster_specifier_case = .kWeightedClusters then
        RouteEntryImplBase.addWeightedClusters rule.route.weighted_clusters.clusters [] 0
      else .ok ([], 0)) = .ok (e.weighted_clusters_, e.total_cluster_weight_) ∧
    e.cluster_name_ = rule.route.cluster ∧
    e.request_mutation_ =
      rule.request_mutation.map (fun keyValue => ⟨keyValue.key, keyValue.value⟩) ∧
    e.response_mutation_ =
      rule.response_mutation.map (fun keyValue => ⟨keyValue.key, keyValue.value⟩) ∧
    e.hash_policy_ =
      (if rule.route.hash_policy.length > 0 then some ⟨rule.route.hash_policy⟩ else none) := by
  unfold RouteEntryImplBase.new at h
  cases hb : hu.buildHeaderDataVector rule.match_.metadata with
  | error ex => rw [hb] at h; cases h
  | ok hs =>
    rw [hb] at h
    simp only at h
    cases hw : (if rule.route.cluster_specifier_case = .kWeightedClusters then
        RouteEntryImplBase.addWeightedClusters rule.route.weighted_clusters.clusters [] 0
      else .ok ([], 0)) with
    | error ex => rw [hw] at h; cases h
    | ok p =>
      obtain ⟨wcs, total⟩ := p
      rw [hw] at h
      simp only at h
      injection h with h
      subst h
      exact ⟨rfl, rfl, rfl, rfl, rfl, rfl⟩

end Construction

section ConstructionClaims

variable {HeaderMatcher HeaderData HeaderMap : Type}

/-- C5: constructing a route entry from a weighted rule one of whose clusters
has no weight fails with an exception (the missing-field exception for
`weight` when the match conditions of the rule build), and constructing the
route matcher fails as a whole, yielding no matcher, whenever the construction
of any one of its entries fails. -/
theorem construction_fails_on_missing_weight
    (hu : HeaderUtility HeaderMatcher HeaderData HeaderMap) :
    (∀ (rule : Config.Route HeaderMatcher) (wc : Config.WeightedCluster),
      rule.route.cluster_specifier = .weightedClusters wc →
      (∃ c ∈ wc.clusters, c.weight = none) →
      ∃ ex, RouteEntryImplBase.new hu rule = .error ex ∧
        ((∃ hs, hu.buildHeaderDataVector rule.match_.metadata = .ok hs) →
          ex = .missingField "weight")) ∧
    (∀ config : Config.RouteConfig HeaderMatcher,
      (∃ rule ∈ config.routes, ∃ ex, RouteEntryImpl.new hu rule = .error ex) →
      ∃ ex, RouteMatcherImpl.new hu config = .error ex) := by
  constructor
  · intro rule wc hspec hmissing
    have hloop := addWeightedClusters_error wc.clusters hmissing [] 0
    cases hb : hu.buildHeaderDataVector rule.match_.metadata with
    | error ex =>
      refine ⟨ex, by simp [RouteEntryImplBase.new, hb], ?_⟩
      rintro ⟨hs, hhs⟩
      cases hhs
    | ok hs =>
      refine ⟨.missingField "weight", ?_, fun _ => rfl⟩
      simp [RouteEntryImplBase.new, hb, Config.RouteAction.cluster_specifier_case,
        Config.RouteAction.weighted_clusters, hspec, hloop]
  · intro config h
    obtain ⟨ex, hex⟩ := addRoutes_error hu config.routes h []
    exact ⟨ex, by simp [RouteMatcherImpl.new, hex]⟩

/-- Scenario: the rule with weighted
clusters `A:1` and `B` without weight cannot be constructed, and neither can a
matcher whose rule list holds it after a valid rule. -/
theorem construction_fails_on_missing_weight_witness :
    (missingWeightRule.route.cluster_specifier =
        .weightedClusters ⟨[⟨"A", some 1⟩, ⟨"B", none⟩]⟩ ∧
      (∃ c ∈ [(⟨"A", some 1⟩ : Config.ClusterWeight), ⟨"B", none⟩], c.weight = none) ∧
      RouteEntryImplBase.new exampleHeaders missingWeightRule =
        .error (.missingField "weight")) ∧
    ((∃ rule ∈ [singleClusterRule, missingWeightRule],
        ∃ ex, RouteEntryImpl.new exampleHeaders rule = .error ex) ∧
      ∃ ex, RouteMatcherImpl.new exampleHeaders ⟨[singleClusterRule, missingWeightRule]⟩ =
        .error ex) :=
  ⟨⟨rfl, ⟨⟨"B", none⟩, by simp, rfl⟩, rfl⟩,
    ⟨missingWeightRule, by simp, .missingField "weight", rfl⟩,
    (construction_fails_on_missing_weight exampleHeaders).2
      ⟨[singleClusterRule, missingWeightRule]⟩
      ⟨missingWeightRule, by simp, .missingField "weight", rfl⟩⟩

/-- C6, as stated, fails: the weighted rule with an empty cluster list, whose
total weight is zero, is constructed without any exception. -/
theorem zero_total_weight_counterexample :
    emptyWeightedRule.route.cluster_specifier = .weightedClusters ⟨[]⟩ ∧
    RouteEntryImplBase.new exampleHeaders emptyWeightedRule = .ok emptyWeightedEntry ∧
    emptyWeightedEntry.total_cluster_weight_ = 0 :=
  ⟨rfl, rfl, rfl⟩

/-- C6, amended: a weighted rule with an empty cluster list is not a
construction-time error. Whenever the match conditions of the rule build, the
entry is constructed with an empty weighted list and total weight zero, and
`clusterEntry` returns the entry itself for every random value, without
reaching the weighted selection. -/
theorem empty_weighted_rule_constructs (hu : HeaderUtility HeaderMatcher HeaderData HeaderMap)
    (rule : Config.Route HeaderMatcher) (hs : List HeaderData)
    (hspec : rule.route.cluster_specifier = .weightedClusters ⟨[]⟩)
    (hb : hu.buildHeaderDataVector rule.match_.metadata = .ok hs) :
    ∃ e, RouteEntryImplBase.new hu rule = .ok e ∧ e.weighted_clusters_ = [] ∧
      e.total_cluster_weight_ = 0 ∧ ∀ r : Nat, e.clusterEntry r = .ok (some (.entry e)) := by
  refine ⟨
    { cluster_name_ := rule.route.cluster
      config_headers_ := hs
      weighted_clusters_ := []
      total_cluster_weight_ := 0
      request_mutation_ :=
        rule.request_mutation.map (fun keyValue => ⟨keyValue.key, keyValue.value⟩)
      response_mutation_ :=
        rule.response_mutation.map (fun keyValue => ⟨keyValue.key, keyValue.value⟩)
      hash_policy_ :=
        if rule.route.hash_policy.length > 0 then some ⟨rule.route.hash_policy⟩ else none },
    ?_, rfl, rfl, ?_⟩
  · simp [RouteEntryImplBase.new, hb, Config.RouteAction.cluster_specifier_case,
      Config.RouteAction.weighted_clusters, hspec, RouteEntryImplBase.addWeightedClusters]
  · intro r
    rfl

/-- Scenario: the weighted rule with an empty cluster list is constructed, and
the entry resolves to itself. -/
theorem empty_weighted_rule_constructs_witness :
    emptyWeightedRule.route.cluster_specifier = .weightedClusters ⟨[]⟩ ∧
    exampleHeaders.buildHeaderDataVector emptyWeightedRule.match_.metadata = .ok [] ∧
    ∃ e, RouteEntryImplBase.new exampleHeaders emptyWeightedRule = .ok e ∧
      e.weighted_clusters_ = [] ∧ e.total_cluster_weight_ = 0 ∧
      ∀ r : Nat, e.clusterEntry r = .ok (some (.entry e)) :=
  ⟨rfl, rfl, empty_weighted_rule_constructs exampleHeaders emptyWeightedRule [] rfl rfl⟩

/-- The weighted rule whose only cluster has weight zero is constructed with a
non-empty weighted list and total weight zero; the weighted selection on the
constructed entry divides by zero. -/
theorem zero_weight_cluster_evaluation :
    RouteEntryImplBase.new exampleHeaders zeroWeightRule = .ok zeroWeightEntry ∧
    zeroWeightEntry.weighted_clusters_ ≠ [] ∧
    zeroWeightEntry.total_cluster_weight_ = 0 ∧
    zeroWeightEntry.clusterEntry 5 = .error .divisionByZero := by
  refine ⟨?_, by simp [zeroWeightEntry], rfl, rfl⟩
  simp [RouteEntryImplBase.new, zeroWeightRule, zeroWeightEntry, exampleHeaders,
    HeaderUtility.buildHeaderDataVector, Config.RouteAction.cluster_specifier_case,
    Config.RouteAction.weighted_clusters, Config.RouteAction.cluster,
    RouteEntryImplBase.addWeightedClusters, WeightedClusterEntry.new,
    PROTOBUF_GET_WRAPPED_REQUIRED, WeightedClusterEntry.clusterWeight]

end ConstructionClaims

/-! ## Resolution of the cluster and the header predicate -/

section Resolution

variable {HeaderMatcher HeaderData HeaderMap : Type}

theorem clusterEntry_of_no_weighted (e : RouteEntryImplBase HeaderData) (r : Nat)
    (h : e.weighted_clusters_ = []) : e.clusterEntry r = .ok (some (.entry e)) := by
  simp [RouteEntryImplBase.clusterEntry, h]

theorem headersMatch_of_no_conditions (hu : HeaderUtility HeaderMatcher HeaderData HeaderMap)
    (e : RouteEntryImplBase HeaderData) (md : MetadataImpl HeaderMap)
    (h : e.config_headers_ = []) : RouteEntryImplBase.headersMatch hu e md = true := by
  simp [RouteEntryImplBase.headersMatch, h]

theorem new_of_single_cluster (hu : HeaderUtility HeaderMatcher HeaderData HeaderMap)
    (rule : Config.Route HeaderMatcher) (name : String)
    (hmatch : rule.match_.metadata = [])
    (hspec : rule.route.cluster_specifier = .cluster name) :
    ∃ e, RouteEntryImplBase.new hu rule = .ok e ∧ e.config_headers_ = [] ∧
      e.weighted_clusters_ = [] ∧ e.cluster_name_ = name := by
  refine ⟨
    { cluster_name_ := name
      config_headers_ := []
      weighted_clusters_ := []
      total_cluster_weight_ := 0
      request_mutation_ :=
        rule.request_mutation.map (fun keyValue => ⟨keyValue.key, keyValue.value⟩)
      response_mutation_ :=
        rule.response_mutation.map (fun keyValue => ⟨keyValue.key, keyValue.value⟩)
      hash_policy_ :=
        if rule.route.hash_policy.length > 0 then some ⟨rule.route.hash_policy⟩ else none },
    ?_, rfl, rfl, rfl⟩
  simp [RouteEntryImplBase.new, hmatch, HeaderUtility.buildHeaderDataVector,
    Config.RouteAction.cluster_specifier_case, Config.RouteAction.cluster, hspec]

/-- C7: for an entry with no weighted clusters, `clusterEntry` returns the
entry itself for every random value, and the cluster name of the resolved
route is the configured cluster name. In particular the matcher built from one
rule with no match condition and a single cluster `name` (such as `A`)
resolves every metadata and every random value to a route named `name`. -/
theorem clusterEntry_single_cluster (hu : HeaderUtility HeaderMatcher HeaderData HeaderMap)
    (e : RouteEntryImplBase HeaderData) (rule : Config.Route HeaderMatcher) (name : String)
    (md : MetadataImpl HeaderMap) (r : Nat) :
    (e.weighted_clusters_ = [] →
      e.clusterEntry r = .ok (some (.entry e)) ∧
      (Route.entry e).clusterName = e.cluster_name_) ∧
    (rule.match_.metadata = [] → rule.route.cluster_specifier = .cluster name →
      ∃ m x, RouteMatcherImpl.new hu ⟨[rule]⟩ = .ok m ∧
        RouteMatcherImpl.route hu m md r = .ok (some x) ∧ x.clusterName = name) := by
  constructor
  · intro h
    exact ⟨clusterEntry_of_no_weighted e r h, rfl⟩
  · intro hmatch hspec
    obtain ⟨e', hnew, hcfg, hw, hname⟩ := new_of_single_cluster hu rule name hmatch hspec
    refine ⟨⟨[e']⟩, .entry e', ?_, ?_, ?_⟩
    · simp [RouteMatcherImpl.new, RouteMatcherImpl.addRoutes, RouteEntryImpl.new, hnew]
    · unfold RouteMatcherImpl.route
      rw [routeLoop_cons_of_headersMatch hu e' [] md r
        (headersMatch_of_no_conditions hu e' md hcfg)]
      exact clusterEntry_of_no_weighted e' r hw
    · exact hname

/-- Scenario: the single rule with no predicate and the cluster `A`
resolves the request with `env=staging` and random value 7 to cluster `A`. -/
theorem clusterEntry_single_cluster_witness :
    (defaultEntry.weighted_clusters_ = [] ∧
      defaultEntry.clusterEntry 7 = .ok (some (.entry defaultEntry)) ∧
      (Route.entry defaultEntry).clusterName = "default") ∧
    (singleClusterRule.match_.metadata = [] ∧
      singleClusterRule.route.cluster_specifier = .cluster "A" ∧
      ∃ m x, RouteMatcherImpl.new exampleHeaders ⟨[singleClusterRule]⟩ = .ok m ∧
        RouteMatcherImpl.route exampleHeaders m stagingRequest 7 = .ok (some x) ∧
        x.clusterName = "A") :=
  ⟨⟨rfl,
      (clusterEntry_single_cluster exampleHeaders defaultEntry singleClusterRule "A"
        stagingRequest 7).1 rfl⟩,
    ⟨rfl, rfl,
      (clusterEntry_single_cluster exampleHeaders defaultEntry singleClusterRule "A"
        stagingRequest 7).2 rfl rfl⟩⟩

/-- C8: an entry with zero match conditions matches every metadata input. This
holds for every entry whose list of conditions is empty, and for every entry
constructed from a rule that configures no match condition. -/
theorem headersMatch_catch_all (hu : HeaderUtility HeaderMatcher HeaderData HeaderMap)
    (e : RouteEntryImplBase HeaderData) (rule : Config.Route HeaderMatcher)
    (md : MetadataImpl HeaderMap) :
    (e.config_headers_ = [] → RouteEntryImplBase.headersMatch hu e md = true) ∧
    (rule.match_.metadata = [] → RouteEntryImplBase.new hu rule = .ok e →
      RouteEntryImplBase.headersMatch hu e md = true) := by
  constructor
  · exact headersMatch_of_no_conditions hu e md
  · intro hmatch hnew
    have hb := (new_ok_members hu rule e hnew).1
    rw [hmatch] at hb
    have hcfg : e.config_headers_ = [] := by
      simp only [HeaderUtility.buildHeaderDataVector] at hb
      injection hb with hb
      exact hb.symm
    exact headersMatch_of_no_conditions hu e md hcfg

/-- Scenario: the entry constructed from the rule
without match conditions matches the request with `env=staging`. -/
theorem headersMatch_catch_all_witness :
    (duplicateKeyEntry.config_headers_ = [] ∧
      RouteEntryImplBase.headersMatch exampleHeaders duplicateKeyEntry stagingRequest = true) ∧
    (duplicateKeyRule.match_.metadata = [] ∧
      RouteEntryImplBase.new exampleHeaders duplicateKeyRule = .ok duplicateKeyEntry ∧
      RouteEntryImplBase.headersMatch exampleHeaders duplicateKeyEntry stagingRequest = true) :=
  ⟨⟨rfl, (headersMatch_catch_all exampleHeaders duplicateKeyEntry duplicateKeyRule
      stagingRequest).1 rfl⟩,
    ⟨rfl, rfl, (headersMatch_catch_all exampleHeaders duplicateKeyEntry duplicateKeyRule
      stagingRequest).2 rfl rfl⟩⟩

/-- C9: for an entry with a non-empty weighted list and a positive total
weight `T`, `clusterEntry r` equals `clusterEntry (r % T)`, the mapped value
lies in `[0, T)`, and two random values with the same mapped value resolve
alike. -/
theorem clusterEntry_depends_on_modulo (e : RouteEntryImplBase HeaderData) (r : Nat)
    (hne : e.weighted_clusters_ ≠ []) (hT : 0 < e.total_cluster_weight_) :
    e.clusterEntry r = e.clusterEntry (r % e.total_cluster_weight_) ∧
    r % e.total_cluster_weight_ < e.total_cluster_weight_ ∧
    ∀ r' : Nat, r' % e.total_cluster_weight_ = r % e.total_cluster_weight_ →
      e.clusterEntry r' = e.clusterEntry r := by
  have hT0 : e.total_cluster_weight_ ≠ 0 := Nat.pos_iff_ne_zero.1 hT
  have hempty : e.weighted_clusters_.isEmpty = false := by
    cases hw : e.weighted_clusters_ with
    | nil => exact absurd hw hne
    | cons a l => rfl
  refine ⟨?_, Nat.mod_lt r hT, ?_⟩
  · simp only [RouteEntryImplBase.clusterEntry, WeightedClusterUtil.pickCluster, hempty,
      Nat.mod_mod]
  · intro r' hr'
    simp only [RouteEntryImplBase.clusterEntry, WeightedClusterUtil.pickCluster, hempty, hT0,
      hr']

/-- Scenario: the entry with clusters
`A:30` and `B:70` resolves the random value 129 as it resolves 29. -/
theorem clusterEntry_depends_on_modulo_witness :
    weightedEntry.weighted_clusters_ ≠ [] ∧ 0 < weightedEntry.total_cluster_weight_ ∧
    weightedEntry.clusterEntry 129 =
      weightedEntry.clusterEntry (129 % weightedEntry.total_cluster_weight_) ∧
    129 % weightedEntry.total_cluster_weight_ < weightedEntry.total_cluster_weight_ ∧
    ∀ r' : Nat, r' % weightedEntry.total_cluster_weight_ =
        129 % weightedEntry.total_cluster_weight_ →
      weightedEntry.clusterEntry r' = weightedEntry.clusterEntry 129 :=
  ⟨by simp [weightedEntry], by decide,
    clusterEntry_depends_on_modulo weightedEntry 129 (by simp [weightedEntry]) (by decide)⟩

end Resolution

/-! ## Weighted selection -/

section WeightedSelection

variable {HeaderMatcher HeaderData HeaderMap : Type}

theorem sum_le_length_mul (ws : List Nat) (bound : Nat) (h : ∀ w ∈ ws, w < bound) :
    ws.sum ≤ ws.length * bound := by
  induction ws with
  | nil => simp
  | cons a ws ih =>
    have ha : a < bound := h a (List.mem_cons_self a ws)
    have hrest := ih (fun w hw => h w (List.mem_cons_of_mem a hw))
    simp only [List.sum_cons, List.length_cons, Nat.add_mul, Nat.one_mul]
    omega

theorem sum_lt_two_pow_64 (ws : List Nat) (h32 : ∀ w ∈ ws, w < 2 ^ 32)
    (hlen : ws.length < 2 ^ 31) : ws.sum < 2 ^ 64 := by
  have h1 := sum_le_length_mul ws (2 ^ 32) h32
  have h2 : ws.length * 2 ^ 32 ≤ 2 ^ 31 * 2 ^ 32 := Nat.mul_le_mul_right _ (Nat.le_of_lt hlen)
  have h3 : (2 : Nat) ^ 31 * 2 ^ 32 < 2 ^ 64 := by norm_num
  omega

theorem addWeightedClusters_ok (cs : List Config.ClusterWeight) (ws : List Nat)
    (h : cs.map (fun c => c.weight) = ws.map some) (acc : List WeightedClusterEntry)
    (total : Nat) (ht : total < 2 ^ 64) :
    ∃ entries, RouteEntryImplBase.addWeightedClusters cs acc total =
        .ok (acc ++ entries, (total + ws.sum) % 2 ^ 64) ∧
      entries.map (fun x => x.cluster_name_) = cs.map (fun c => c.name) ∧
      entries.map (fun x => x.cluster_weight_) = ws := by
  induction cs generalizing ws acc total with
  | nil =>
    cases ws with
    | nil =>
      refine ⟨[], ?_, rfl, rfl⟩
      simp only [RouteEntryImplBase.addWeightedClusters, List.append_nil, List.sum_nil,
        Nat.add_zero, Nat.mod_eq_of_lt ht]
    | cons w ws => simp at h
  | cons c cs ih =>
    cases ws with
    | nil => simp at h
    | cons w ws =>
      simp only [List.map_cons, List.cons.injEq] at h
      obtain ⟨hw, hrest⟩ := h
      obtain ⟨entries, hloop, hnames, hweights⟩ :=
        ih ws hrest (acc ++ [⟨c.name, w⟩]) ((total + w) % 2 ^ 64) (Nat.mod_lt _ (by norm_num))
      refine ⟨⟨c.name, w⟩ :: entries, ?_, by simp [hnames], by simp [hweights]⟩
      simp only [RouteEntryImplBase.addWeightedClusters, WeightedClusterEntry.new,
        PROTOBUF_GET_WRAPPED_REQUIRED, hw, WeightedClusterEntry.clusterWeight, hloop,
        List.append_assoc, List.singleton_append, List.sum_cons]
      congr 2
      omega

theorem pickClusterLoop_index_ge (total sel : Nat) (flag : Bool)
    (cs : List WeightedClusterEntry) (k b j : Nat) (c : WeightedClusterEntry)
    (h : WeightedClusterUtil.pickClusterLoop total sel flag cs k b = .ok (j, c)) : k ≤ j := by
  induction cs generalizing k b with
  | nil => simp [WeightedClusterUtil.pickClusterLoop] at h
  | cons a cs ih =>
    unfold WeightedClusterUtil.pickClusterLoop at h
    simp only at h
    split at h
    · cases h
    · split at h
      · injection h with h
        injection h with h1 h2
        omega
      · have := ih _ _ h
        omega

theorem pickClusterLoop_iff (total sel : Nat) (cs : List WeightedClusterEntry) (k b i : Nat)
    (c : WeightedClusterEntry) (hb : b ≤ sel)
    (hsum : b + (cs.map (fun x => x.cluster_weight_)).sum ≤ total) (htotal : total < 2 ^ 64)
    (hc : cs[i]? = some c) :
    WeightedClusterUtil.pickClusterLoop total sel false cs k b = .ok (k + i, c) ↔
      b + ((cs.take i).map (fun x => x.cluster_weight_)).sum ≤ sel ∧
        sel < b + ((cs.take (i + 1)).map (fun x => x.cluster_weight_)).sum := by
  induction cs generalizing k b i with
  | nil => simp at hc
  | cons a cs ih =>
    simp only [List.map_cons, List.sum_cons] at hsum
    have hend : (b + a.cluster_weight_) % 2 ^ 64 = b + a.cluster_weight_ :=
      Nat.mod_eq_of_lt (by omega)
    have hassert : b + a.cluster_weight_ ≤ total := by omega
    unfold WeightedClusterUtil.pickClusterLoop
    simp only [WeightedClusterEntry.clusterWeight, hend, hassert, decide_True, Bool.not_true,
      Bool.not_false, Bool.and_false, Bool.false_eq_true, if_false]
    by_cases hin : b ≤ sel ∧ sel < b + a.cluster_weight_
    · rw [if_pos hin]
      cases i with
      | zero =>
        simp only [List.getElem?_cons_zero, Option.some.injEq] at hc
        subst hc
        simp [hin.2, hb]
      | succ i =>
        simp only [List.take_succ_cons, List.map_cons, List.sum_cons]
        constructor
        · intro h
          injection h with h
          injection h with h1 h2
          omega
        · intro h
          omega
    · rw [if_neg hin]
      have hge : b + a.cluster_weight_ ≤ sel := by
        by_contra hlt
        exact hin ⟨hb, by omega⟩
      cases i with
      | zero =>
        constructor
        · intro h
          have := pickClusterLoop_index_ge _ _ _ _ _ _ _ _ h
          omega
        · intro h
          simp only [List.take_succ_cons, List.map_cons, List.sum_cons, List.take_zero,
            List.map_nil, List.sum_nil] at h
          omega
      | succ i =>
        simp only [List.getElem?_cons_succ] at hc
        have := ih (k + 1) (b + a.cluster_weight_) i hge (by omega) hc
        simp only [List.take_succ_cons, List.map_cons, List.sum_cons]
        have hk : k + (i + 1) = k + 1 + i := by omega
        rw [hk, this]
        simp only [List.take_succ_cons, Nat.add_assoc]

end WeightedSelection

section WeightedSelectionClaims

variable {HeaderMatcher HeaderData HeaderMap : Type}

/-- C2: let an entry be constructed from a rule with weighted clusters whose
weights are `ws` (32-bit values, present on every cluster, in a repeated field
whose size is a signed 32-bit integer), and let `r` be below their sum. Then the entry holds the configured clusters in order, its
total weight is the sum of `ws`, and `clusterEntry r` returns the weighted
cluster at position `i` exactly when `r` lies between the sum of the first `i`
weights (inclusive) and the sum of the first `i + 1` weights (exclusive). -/
theorem weighted_selection_interval (hu : HeaderUtility HeaderMatcher HeaderData HeaderMap)
    (rule : Config.Route HeaderMatcher) (wc : Config.WeightedCluster) (ws : List Nat)
    (e : RouteEntryImplBase HeaderData) (r i : Nat)
    (hspec : rule.route.cluster_specifier = .weightedClusters wc)
    (hweights : wc.clusters.map (fun c => c.weight) = ws.map some)
    (h32 : ∀ w ∈ ws, w < 2 ^ 32) (hlen : ws.length < 2 ^ 31)
    (hnew : RouteEntryImplBase.new hu rule = .ok e)
    (hr : r < ws.sum) (hi : i < ws.length) :
    e.weighted_clusters_.map (fun x => x.cluster_name_) = wc.clusters.map (fun c => c.name) ∧
    e.weighted_clusters_.map (fun x => x.cluster_weight_) = ws ∧
    e.total_cluster_weight_ = ws.sum ∧
    ∃ c, e.weighted_clusters_[i]? = some c ∧
      (e.clusterEntry r = .ok (some (.weightedCluster e i c)) ↔
        (ws.take i).sum ≤ r ∧ r < (ws.take (i + 1)).sum) := by
  have hsum64 := sum_lt_two_pow_64 ws h32 hlen
  obtain ⟨entries, hloop, hnames, hws⟩ :=
    addWeightedClusters_ok wc.clusters ws hweights [] 0 (by norm_num)
  have hmem := (new_ok_members hu rule e hnew).2.1
  simp only [Config.RouteAction.cluster_specifier_case, Config.RouteAction.weighted_clusters,
    hspec, if_true, hloop, List.nil_append, Nat.zero_add, Nat.mod_eq_of_lt hsum64,
    Except.ok.injEq, Prod.mk.injEq] at hmem
  obtain ⟨hentries, htotal⟩ := hmem
  subst hentries
  refine ⟨hnames, hws, htotal.symm, ?_⟩
  have hilen : i < e.weighted_clusters_.length := by
    have : e.weighted_clusters_.length = ws.length := by rw [← hws, List.length_map]
    omega
  refine ⟨e.weighted_clusters_[i], List.getElem?_eq_getElem hilen, ?_⟩
  have hne : e.weighted_clusters_.isEmpty = false := by
    cases hw : e.weighted_clusters_ with
    | nil => rw [hw] at hilen; simp at hilen
    | cons a l => rfl
  have htot0 : ws.sum ≠ 0 := by omega
  have hloopiff := pickClusterLoop_iff ws.sum r e.weighted_clusters_ 0 0 i
    e.weighted_clusters_[i] (Nat.zero_le r) (by rw [hws]; omega) hsum64
    (List.getElem?_eq_getElem hilen)
  simp only [Nat.zero_add, List.map_take, hws] at hloopiff
  simp only [RouteEntryImplBase.clusterEntry, hne, WeightedClusterUtil.pickCluster, ← htotal,
    htot0, Nat.mod_eq_of_lt hr, Bool.false_eq_true, if_false]
  rw [← hloopiff]
  cases hres : WeightedClusterUtil.pickClusterLoop ws.sum r false e.weighted_clusters_ 0 0 with
  | error f => simp
  | ok p =>
    obtain ⟨j, c⟩ := p
    simp only [Except.ok.injEq, Option.some.injEq, Route.weightedCluster.injEq, true_and,
      Prod.mk.injEq]

/-- Scenario: the entry constructed from the clusters `A:30` and `B:70`
resolves the random value 29 to the cluster at position 0 and the random
value 30 to the cluster at position 1. -/
theorem weighted_selection_interval_witness :
    (weightedRule.route.cluster_specifier =
        .weightedClusters ⟨[⟨"A", some 30⟩, ⟨"B", some 70⟩]⟩ ∧
      RouteEntryImplBase.new exampleHeaders weightedRule = .ok weightedEntry ∧
      29 < [30, 70].sum ∧ 0 < [30, 70].length ∧ 30 < [30, 70].sum ∧ 1 < [30, 70].length) ∧
    (weightedEntry.total_cluster_weight_ = [30, 70].sum ∧
      ∃ c, weightedEntry.weighted_clusters_[0]? = some c ∧
        (weightedEntry.clusterEntry 29 = .ok (some (.weightedCluster weightedEntry 0 c)) ↔
          ([30, 70].take 0).sum ≤ 29 ∧ 29 < ([30, 70].take (0 + 1)).sum)) ∧
    (weightedEntry.total_cluster_weight_ = [30, 70].sum ∧
      ∃ c, weightedEntry.weighted_clusters_[1]? = some c ∧
        (weightedEntry.clusterEntry 30 = .ok (some (.weightedCluster weightedEntry 1 c)) ↔
          ([30, 70].take 1).sum ≤ 30 ∧ 30 < ([30, 70].take (1 + 1)).sum)) :=
  have hnew : RouteEntryImplBase.new exampleHeaders weightedRule = .ok weightedEntry := by
    simp [RouteEntryImplBase.new, weightedRule, weightedEntry, exampleHeaders,
      HeaderUtility.buildHeaderDataVector, Config.RouteAction.cluster_specifier_case,
      Config.RouteAction.weighted_clusters, Config.RouteAction.cluster,
      RouteEntryImplBase.addWeightedClusters, WeightedClusterEntry.new,
      PROTOBUF_GET_WRAPPED_REQUIRED, WeightedClusterEntry.clusterWeight]
  have h32 : ∀ w ∈ [30, 70], w < 2 ^ 32 := by
    intro w hw
    simp at hw
    rcases hw with rfl | rfl <;> norm_num
  ⟨⟨rfl, hnew, by decide, by decide, by decide, by decide⟩,
    (weighted_selection_interval exampleHeaders weightedRule
      ⟨[⟨"A", some 30⟩, ⟨"B", some 70⟩]⟩ [30, 70] weightedEntry 29 0 rfl rfl h32
      (by norm_num) hnew (by decide) (by decide)).2.2,
    (weighted_selection_interval exampleHeaders weightedRule
      ⟨[⟨"A", some 30⟩, ⟨"B", some 70⟩]⟩ [30, 70] weightedEntry 30 1 rfl rfl h32
      (by norm_num) hnew (by decide) (by decide)).2.2⟩

end WeightedSelectionClaims

/-! ## Members of a constructed entry -/

section ConstructedMembers

variable {HeaderMatcher HeaderData HeaderMap : Type}

theorem addWeightedClusters_ok_weights (cs : List Config.ClusterWeight)
    (acc : List WeightedClusterEntry) (total : Nat) (p : List WeightedClusterEntry × Nat)
    (h : RouteEntryImplBase.addWeightedClusters cs acc total = .ok p) :
    ∃ ws : List Nat, cs.map (fun c => c.weight) = ws.map some := by
  induction cs generalizing acc total with
  | nil => exact ⟨[], rfl⟩
  | cons c cs ih =>
    cases hw : c.weight with
    | none =>
      simp [RouteEntryImplBase.addWeightedClusters, WeightedClusterEntry.new,
        PROTOBUF_GET_WRAPPED_REQUIRED, hw] at h
    | some w =>
      simp only [RouteEntryImplBase.addWeightedClusters, WeightedClusterEntry.new,
        PROTOBUF_GET_WRAPPED_REQUIRED, hw] at h
      obtain ⟨ws, hws⟩ := ih _ _ h
      exact ⟨w :: ws, by simp [hw, hws]⟩

/-- The weighted members of an entry constructed from a weighted rule whose
weights are 32-bit values: the clusters are stored in order and the total is
the sum of the weights, which fits 64 bits. -/
theorem new_weighted_members (hu : HeaderUtility HeaderMatcher HeaderData HeaderMap)
    (rule : Config.Route HeaderMatcher) (wc : Config.WeightedCluster)
    (e : RouteEntryImplBase HeaderData)
    (hspec : rule.route.cluster_specifier = .weightedClusters wc)
    (h32 : ∀ c ∈ wc.clusters, ∀ w, c.weight = some w → w < 2 ^ 32)
    (hlen : wc.clusters.length < 2 ^ 31)
    (hnew : RouteEntryImplBase.new hu rule = .ok e) :
    e.weighted_clusters_.map (fun x => x.cluster_name_) = wc.clusters.map (fun c => c.name) ∧
    wc.clusters.map (fun c => c.weight) =
      (e.weighted_clusters_.map (fun x => x.cluster_weight_)).map some ∧
    e.total_cluster_weight_ = (e.weighted_clusters_.map (fun x => x.cluster_weight_)).sum ∧
    (e.weighted_clusters_.map (fun x => x.cluster_weight_)).sum < 2 ^ 64 := by
  have hmem := (new_ok_members hu rule e hnew).2.1
  simp only [Config.RouteAction.cluster_specifier_case, Config.RouteAction.weighted_clusters,
    hspec, if_true] at hmem
  obtain ⟨ws, hws⟩ := addWeightedClusters_ok_weights _ _ _ _ hmem
  have hws32 : ∀ w ∈ ws, w < 2 ^ 32 := by
    intro w hw
    have hsome : some w ∈ wc.clusters.map (fun c => c.weight) := by
      rw [hws]
      exact List.mem_map.2 ⟨w, hw, rfl⟩
    obtain ⟨c, hc, hcw⟩ := List.mem_map.1 hsome
    exact h32 c hc w hcw
  have hwslen : ws.length < 2 ^ 31 := by
    have := congrArg List.length hws
    simp only [List.length_map] at this
    omega
  have hsum64 := sum_lt_two_pow_64 ws hws32 hwslen
  obtain ⟨entries, hloop, hnames, hweights⟩ :=
    addWeightedClusters_ok wc.clusters ws hws [] 0 (by norm_num)
  rw [hloop] at hmem
  simp only [List.nil_append, Nat.zero_add, Nat.mod_eq_of_lt hsum64, Except.ok.injEq,
    Prod.mk.injEq] at hmem
  obtain ⟨hentries, htotal⟩ := hmem
  subst hentries
  rw [hweights]
  exact ⟨hnames, hws, htotal.symm, hsum64⟩

/-- C11: for a successfully constructed entry whose rule has a weighted set
(32-bit weights in a repeated field), `weighted_clusters_` holds one entry for
each configured cluster, in configuration order, with the configured name and
weight, and `total_cluster_weight_` is the exact sum of those weights, which
does not wrap at 64 bits. For an entry whose rule names a single cluster the
weighted list is empty. -/
theorem constructed_weighted_clusters (hu : HeaderUtility HeaderMatcher HeaderData HeaderMap)
    (rule : Config.Route HeaderMatcher) (e : RouteEntryImplBase HeaderData)
    (hnew : RouteEntryImplBase.new hu rule = .ok e) :
    (∀ wc : Config.WeightedCluster, rule.route.cluster_specifier = .weightedClusters wc →
      (∀ c ∈ wc.clusters, ∀ w, c.weight = some w → w < 2 ^ 32) →
      wc.clusters.length < 2 ^ 31 →
      e.weighted_clusters_.length = wc.clusters.length ∧
      e.weighted_clusters_.map (fun x => x.cluster_name_) = wc.clusters.map (fun c => c.name) ∧
      e.weighted_clusters_.map (fun x => some x.cluster_weight_) =
        wc.clusters.map (fun c => c.weight) ∧
      e.total_cluster_weight_ = (e.weighted_clusters_.map (fun x => x.cluster_weight_)).sum ∧
      e.total_cluster_weight_ < 2 ^ 64) ∧
    (∀ name : String, rule.route.cluster_specifier = .cluster name →
      e.weighted_clusters_ = []) := by
  constructor
  · intro wc hspec h32 hlen
    obtain ⟨hnames, hweights, htotal, hsum64⟩ :=
      new_weighted_members hu rule wc e hspec h32 hlen hnew
    refine ⟨?_, hnames, ?_, htotal, by rw [htotal]; exact hsum64⟩
    · have := congrArg List.length hnames
      simpa using this
    · rw [hweights, List.map_map]
      rfl
  · intro name hspec
    have hmem := (new_ok_members hu rule e hnew).2.1
    simp only [Config.RouteAction.cluster_specifier_case, hspec] at hmem
    simp only [reduceCtorEq, if_false, Except.ok.injEq, Prod.mk.injEq] at hmem
    exact hmem.1.symm

/-- Scenario: the entry constructed from the clusters `A:30` and `B:70` holds
both clusters in order and the total weight 100. -/
theorem constructed_weighted_clusters_witness :
    RouteEntryImplBase.new exampleHeaders weightedRule = .ok weightedEntry ∧
    weightedEntry.weighted_clusters_.length = 2 ∧
    weightedEntry.weighted_clusters_.map (fun x => x.cluster_name_) = ["A", "B"] ∧
    weightedEntry.weighted_clusters_.map (fun x => some x.cluster_weight_) =
      [some 30, some 70] ∧
    weightedEntry.total_cluster_weight_ =
      (weightedEntry.weighted_clusters_.map (fun x => x.cluster_weight_)).sum ∧
    weightedEntry.total_cluster_weight_ < 2 ^ 64 :=
  have hnew : RouteEntryImplBase.new exampleHeaders weightedRule = .ok weightedEntry := by
    simp [RouteEntryImplBase.new, weightedRule, weightedEntry, exampleHeaders,
      HeaderUtility.buildHeaderDataVector, Config.RouteAction.cluster_specifier_case,
      Config.RouteAction.weighted_clusters, Config.RouteAction.cluster,
      RouteEntryImplBase.addWeightedClusters, WeightedClusterEntry.new,
      PROTOBUF_GET_WRAPPED_REQUIRED, WeightedClusterEntry.clusterWeight]
  have h32 : ∀ c ∈ [(⟨"A", some 30⟩ : Config.ClusterWeight), ⟨"B", some 70⟩],
      ∀ w, c.weight = some w → w < 2 ^ 32 := by
    intro c hc w hw
    simp at hc
    rcases hc with rfl | rfl <;> simp at hw <;> subst hw <;> norm_num
  ⟨hnew,
    (constructed_weighted_clusters exampleHeaders weightedRule weightedEntry hnew).1
      ⟨[⟨"A", some 30⟩, ⟨"B", some 70⟩]⟩ rfl h32 (by norm_num)⟩

end ConstructedMembers

/-! ## The weighted walk always finds its interval -/

section WalkFinds

variable {HeaderMatcher HeaderData HeaderMap : Type}

theorem prefix_sum_le_sum (cs : List WeightedClusterEntry) (j : Nat) :
    ((cs.take j).map (fun x => x.cluster_weight_)).sum ≤
      (cs.map (fun x => x.cluster_weight_)).sum := by
  have h := List.sum_take_add_sum_drop (cs.map (fun x => x.cluster_weight_)) j
  rw [List.map_take]
  omega

theorem exists_interval (cs : List WeightedClusterEntry) (b sel : Nat) (hb : b ≤ sel)
    (hsel : sel < b + (cs.map (fun x => x.cluster_weight_)).sum) :
    ∃ i c, cs[i]? = some c ∧
      b + ((cs.take i).map (fun x => x.cluster_weight_)).sum ≤ sel ∧
      sel < b + ((cs.take (i + 1)).map (fun x => x.cluster_weight_)).sum := by
  induction cs generalizing b with
  | nil =>
    simp only [List.map_nil, List.sum_nil] at hsel
    omega
  | cons a cs ih =>
    simp only [List.map_cons, List.sum_cons] at hsel
    by_cases hlt : sel < b + a.cluster_weight_
    · refine ⟨0, a, by simp, ?_, ?_⟩
      · simpa using hb
      · simpa using hlt
    · obtain ⟨i, c, hc, hlo, hhi⟩ := ih (b + a.cluster_weight_) (by omega) (by omega)
      refine ⟨i + 1, c, by simpa using hc, ?_, ?_⟩
      · simp only [List.take_succ_cons, List.map_cons, List.sum_cons]
        omega
      · simp only [List.take_succ_cons, List.map_cons, List.sum_cons]
        omega

/-- On a list whose weights sum to a positive total that fits 64 bits, the
selection returns the entry whose cumulative interval holds the mapped random
value. -/
theorem pickCluster_finds (cs : List WeightedClusterEntry) (total r : Nat)
    (htotal : total = (cs.map (fun x => x.cluster_weight_)).sum) (hpos : 0 < total)
    (h64 : total < 2 ^ 64) :
    ∃ i c, cs[i]? = some c ∧
      WeightedClusterUtil.pickCluster cs total r false = .ok (i, c) ∧
      ((cs.take i).map (fun x => x.cluster_weight_)).sum ≤ r % total ∧
      r % total < ((cs.take (i + 1)).map (fun x => x.cluster_weight_)).sum := by
  have hmod : r % total < total := Nat.mod_lt r hpos
  obtain ⟨i, c, hc, hlo, hhi⟩ :=
    exists_interval cs 0 (r % total) (Nat.zero_le _) (by omega)
  have hiff := pickClusterLoop_iff total (r % total) cs 0 0 i c (Nat.zero_le _)
    (by omega) h64 hc
  simp only [Nat.zero_add] at hiff hlo hhi
  refine ⟨i, c, hc, ?_, hlo, hhi⟩
  have h0 : total ≠ 0 := by omega
  simp only [WeightedClusterUtil.pickCluster, h0, if_false]
  exact hiff.2 ⟨hlo, hhi⟩

theorem clusterEntry_of_pickCluster (e : RouteEntryImplBase HeaderData) (r i : Nat)
    (c : WeightedClusterEntry) (hne : e.weighted_clusters_ ≠ [])
    (h : WeightedClusterUtil.pickCluster e.weighted_clusters_ e.total_cluster_weight_ r false =
      .ok (i, c)) :
    e.clusterEntry r = .ok (some (.weightedCluster e i c)) := by
  have hempty : e.weighted_clusters_.isEmpty = false := by
    cases hw : e.weighted_clusters_ with
    | nil => exact absurd hw hne
    | cons a l => rfl
  simp only [RouteEntryImplBase.clusterEntry, hempty, h, Bool.false_eq_true, if_false]

end WalkFinds

section WalkClaims

variable {HeaderMatcher HeaderData HeaderMap : Type}

/-- C12: weighted clusters take precedence. For an entry constructed from a
weighted rule (32-bit weights in a repeated field) with a non-empty weighted
list and a positive total weight, `clusterEntry` returns, for every random
value, a member of the weighted list of that entry and not the base entry, and
the cluster name of the resolved route is one of the configured weighted
cluster names. -/
theorem weighted_clusters_take_precedence
    (hu : HeaderUtility HeaderMatcher HeaderData HeaderMap)
    (rule : Config.Route HeaderMatcher) (wc : Config.WeightedCluster)
    (e : RouteEntryImplBase HeaderData) (r : Nat)
    (hspec : rule.route.cluster_specifier = .weightedClusters wc)
    (h32 : ∀ c ∈ wc.clusters, ∀ w, c.weight = some w → w < 2 ^ 32)
    (hlen : wc.clusters.length < 2 ^ 31)
    (hnew : RouteEntryImplBase.new hu rule = .ok e)
    (hne : e.weighted_clusters_ ≠ []) (hpos : 0 < e.total_cluster_weight_) :
    ∃ i c, e.weighted_clusters_[i]? = some c ∧
      e.clusterEntry r = .ok (some (.weightedCluster e i c)) ∧
      e.clusterEntry r ≠ .ok (some (.entry e)) ∧
      (Route.weightedCluster e i c).clusterName ∈ wc.clusters.map (fun c => c.name) := by
  obtain ⟨hnames, _, htotal, hsum64⟩ := new_weighted_members hu rule wc e hspec h32 hlen hnew
  obtain ⟨i, c, hc, hpick, _, _⟩ :=
    pickCluster_finds e.weighted_clusters_ e.total_cluster_weight_ r htotal hpos
      (by rw [htotal]; exact hsum64)
  have hentry := clusterEntry_of_pickCluster e r i c hne hpick
  refine ⟨i, c, hc, hentry, ?_, ?_⟩
  · rw [hentry]
    simp
  · rw [← hnames]
    exact List.mem_map.2 ⟨c, List.getElem?_mem hc, rfl⟩

/-- C14: for an entry constructed from a weighted rule (32-bit weights in a
repeated field) with a non-empty weighted list and a positive total weight,
the weighted selection ends, for every random value, with an entry of the
list: the walk finds the interval that holds `r % total_cluster_weight_`, no
cumulative end exceeds the total (so the overflow assertion holds), and the
selection ends in no fault, in particular not in the not-reached marker. -/
theorem weighted_selection_terminates
    (hu : HeaderUtility HeaderMatcher HeaderData HeaderMap)
    (rule : Config.Route HeaderMatcher) (wc : Config.WeightedCluster)
    (e : RouteEntryImplBase HeaderData) (r : Nat)
    (hspec : rule.route.cluster_specifier = .weightedClusters wc)
    (h32 : ∀ c ∈ wc.clusters, ∀ w, c.weight = some w → w < 2 ^ 32)
    (hlen : wc.clusters.length < 2 ^ 31)
    (hnew : RouteEntryImplBase.new hu rule = .ok e)
    (hne : e.weighted_clusters_ ≠ []) (hpos : 0 < e.total_cluster_weight_) :
    (∃ i c, e.weighted_clusters_[i]? = some c ∧
      WeightedClusterUtil.pickCluster e.weighted_clusters_ e.total_cluster_weight_ r false =
        .ok (i, c) ∧
      e.clusterEntry r = .ok (some (.weightedCluster e i c)) ∧
      ((e.weighted_clusters_.take i).map (fun x => x.cluster_weight_)).sum ≤
        r % e.total_cluster_weight_ ∧
      r % e.total_cluster_weight_ <
        ((e.weighted_clusters_.take (i + 1)).map (fun x => x.cluster_weight_)).sum) ∧
    (∀ j : Nat,
      (((e.weighted_clusters_.take j).map (fun x => x.cluster_weight_)).sum) % 2 ^ 64 ≤
        e.total_cluster_weight_) ∧
    (∀ f : Fault,
      WeightedClusterUtil.pickCluster e.weighted_clusters_ e.total_cluster_weight_ r false ≠
        .error f) ∧
    e.clusterEntry r ≠ .ok none := by
  obtain ⟨_, _, htotal, hsum64⟩ := new_weighted_members hu rule wc e hspec h32 hlen hnew
  obtain ⟨i, c, hc, hpick, hlo, hhi⟩ :=
    pickCluster_finds e.weighted_clusters_ e.total_cluster_weight_ r htotal hpos
      (by rw [htotal]; exact hsum64)
  have hentry := clusterEntry_of_pickCluster e r i c hne hpick
  refine ⟨⟨i, c, hc, hpick, hentry, hlo, hhi⟩, ?_, ?_, ?_⟩
  · intro j
    have hle := prefix_sum_le_sum e.weighted_clusters_ j
    rw [htotal]
    exact Nat.le_trans (Nat.mod_le _ _) hle
  · intro f
    rw [hpick]
    simp
  · rw [hentry]
    simp

end WalkClaims

section WalkScenarios

theorem weightedRule_new :
    RouteEntryImplBase.new exampleHeaders weightedRule = .ok weightedEntry := by
  simp [RouteEntryImplBase.new, weightedRule, weightedEntry, exampleHeaders,
    HeaderUtility.buildHeaderDataVector, Config.RouteAction.cluster_specifier_case,
    Config.RouteAction.weighted_clusters, Config.RouteAction.cluster,
    RouteEntryImplBase.addWeightedClusters, WeightedClusterEntry.new,
    PROTOBUF_GET_WRAPPED_REQUIRED, WeightedClusterEntry.clusterWeight]

theorem weightedRule_weights_32 :
    ∀ c ∈ [(⟨"A", some 30⟩ : Config.ClusterWeight), ⟨"B", some 70⟩],
      ∀ w, c.weight = some w → w < 2 ^ 32 := by
  intro c hc w hw
  simp at hc
  rcases hc with rfl | rfl <;> simp at hw <;> subst hw <;> norm_num

/-- Scenario: the entry with the clusters `A:30` and `B:70` resolves the
random value 129 to a member of its weighted list, named as configured. -/
theorem weighted_clusters_take_precedence_witness :
    RouteEntryImplBase.new exampleHeaders weightedRule = .ok weightedEntry ∧
    weightedEntry.weighted_clusters_ ≠ [] ∧ 0 < weightedEntry.total_cluster_weight_ ∧
    ∃ i c, weightedEntry.weighted_clusters_[i]? = some c ∧
      weightedEntry.clusterEntry 129 = .ok (some (.weightedCluster weightedEntry i c)) ∧
      weightedEntry.clusterEntry 129 ≠ .ok (some (.entry weightedEntry)) ∧
      (Route.weightedCluster weightedEntry i c).clusterName ∈
        [(⟨"A", some 30⟩ : Config.ClusterWeight), ⟨"B", some 70⟩].map (fun c => c.name) :=
  ⟨weightedRule_new, by simp [weightedEntry], by decide,
    weighted_clusters_take_precedence exampleHeaders weightedRule
      ⟨[⟨"A", some 30⟩, ⟨"B", some 70⟩]⟩ weightedEntry 129 rfl weightedRule_weights_32
      (by norm_num) weightedRule_new (by simp [weightedEntry]) (by decide)⟩

/-- Scenario: on the entry with the clusters `A:30` and `B:70` the selection
for the random value 129 ends with an entry of the list and in no fault. -/
theorem weighted_selection_terminates_witness :
    RouteEntryImplBase.new exampleHeaders weightedRule = .ok weightedEntry ∧
    weightedEntry.weighted_clusters_ ≠ [] ∧ 0 < weightedEntry.total_cluster_weight_ ∧
    (∃ i c, weightedEntry.weighted_clusters_[i]? = some c ∧
      WeightedClusterUtil.pickCluster weightedEntry.weighted_clusters_
        weightedEntry.total_cluster_weight_ 129 false = .ok (i, c) ∧
      weightedEntry.clusterEntry 129 = .ok (some (.weightedCluster weightedEntry i c)) ∧
      ((weightedEntry.weighted_clusters_.take i).map (fun x => x.cluster_weight_)).sum ≤
        129 % weightedEntry.total_cluster_weight_ ∧
      129 % weightedEntry.total_cluster_weight_ <
        ((weightedEntry.weighted_clusters_.take (i + 1)).map
          (fun x => x.cluster_weight_)).sum) ∧
    (∀ f : Fault,
      WeightedClusterUtil.pickCluster weightedEntry.weighted_clusters_
        weightedEntry.total_cluster_weight_ 129 false ≠ .error f) :=
  ⟨weightedRule_new, by simp [weightedEntry], by decide,
    (weighted_selection_terminates exampleHeaders weightedRule
      ⟨[⟨"A", some 30⟩, ⟨"B", some 70⟩]⟩ weightedEntry 129 rfl weightedRule_weights_32
      (by norm_num) weightedRule_new (by simp [weightedEntry]) (by decide)).1,
    (weighted_selection_terminates exampleHeaders weightedRule
      ⟨[⟨"A", some 30⟩, ⟨"B", some 70⟩]⟩ weightedEntry 129 rfl weightedRule_weights_32
      (by norm_num) weightedRule_new (by simp [weightedEntry]) (by decide)).2.2.1⟩

end WalkScenarios

/-! ## Entries that do not match are ignored -/

section NonMatching

variable {HeaderMatcher HeaderData HeaderMap : Type}

theorem routeLoop_filter (hu : HeaderUtility HeaderMatcher HeaderData HeaderMap)
    (md : MetadataImpl HeaderMap) (r : Nat) (routes : List (RouteEntryImpl HeaderData)) :
    RouteMatcherImpl.routeLoop hu md r routes =
      RouteMatcherImpl.routeLoop hu md r
        (routes.filter (fun x => RouteEntryImplBase.headersMatch hu x md)) := by
  induction routes with
  | nil => rfl
  | cons a routes ih =>
    cases ha : RouteEntryImplBase.headersMatch hu a md with
    | true =>
      rw [List.filter_cons_of_pos (by simpa using ha),
        routeLoop_cons_of_headersMatch hu a _ md r ha,
        routeLoop_cons_of_headersMatch hu a _ md r ha]
    | false =>
      rw [List.filter_cons_of_neg (by simp [ha])]
      have hskip := routeLoop_append_of_no_match hu [a] routes md r (by simpa using ha)
      rw [List.singleton_append] at hskip
      rw [hskip]
      exact ih

/-- C13: for fixed metadata and random value, `route` over a rule list equals
`route` over the sub-list of its entries that match the metadata, in the same
relative order. Hence two rule lists with the same sub-list of matching
entries (they differ by deleting, inserting or permuting entries that do not
match) resolve alike. -/
theorem route_ignores_non_matching (hu : HeaderUtility HeaderMatcher HeaderData HeaderMap)
    (m m2 : RouteMatcherImpl HeaderData) (md : MetadataImpl HeaderMap) (r : Nat) :
    RouteMatcherImpl.route hu m md r =
      RouteMatcherImpl.route hu
        ⟨m.routes_.filter (fun x => RouteEntryImplBase.headersMatch hu x md)⟩ md r ∧
    (m.routes_.filter (fun x => RouteEntryImplBase.headersMatch hu x md) =
        m2.routes_.filter (fun x => RouteEntryImplBase.headersMatch hu x md) →
      RouteMatcherImpl.route hu m md r = RouteMatcherImpl.route hu m2 md r) := by
  constructor
  · exact routeLoop_filter hu md r m.routes_
  · intro h
    unfold RouteMatcherImpl.route
    rw [routeLoop_filter hu md r m.routes_, routeLoop_filter hu md r m2.routes_, h]

/-- Scenario: for the request with `env=staging`, the entry requiring
`env=prod` may stand before or after the catch-all entry without changing the
result. -/
theorem route_ignores_non_matching_witness :
    ([prodEntry, defaultEntry].filter
        (fun x => RouteEntryImplBase.headersMatch exampleHeaders x stagingRequest) =
      [defaultEntry, prodEntry].filter
        (fun x => RouteEntryImplBase.headersMatch exampleHeaders x stagingRequest)) ∧
    RouteMatcherImpl.route exampleHeaders ⟨[prodEntry, defaultEntry]⟩ stagingRequest 7 =
      RouteMatcherImpl.route exampleHeaders ⟨[defaultEntry, prodEntry]⟩ stagingRequest 7 :=
  ⟨rfl,
    (route_ignores_non_matching exampleHeaders ⟨[prodEntry, defaultEntry]⟩
      ⟨[defaultEntry, prodEntry]⟩ stagingRequest 7).2 rfl⟩

end NonMatching

/-! ## Frame of the mutations and the hash policy -/

section Frame

variable {HeaderMatcher HeaderData HeaderMap : Type}

theorem Mutation.insert_of_key_ne (m : Mutation) (key value k : String) (h : key ≠ k) :
    m.insert key value k = m k := by
  unfold Mutation.insert
  cases hkey : m key with
  | some x => rfl
  | none =>
    have hne : k ≠ key := fun heq => h heq.symm
    simp [hne]

theorem Mutation.insert_key_isSome (m : Mutation) (key value : String) :
    (m.insert key value key).isSome = true := by
  cases hkey : m key with
  | some x => rw [Mutation.insert_of_some m key value key x hkey]; rfl
  | none => rw [Mutation.insert_of_none m key value hkey]; rfl

theorem foldl_insert_of_not_mem (l : List MutationEntry) (m : Mutation) (k : String)
    (h : ∀ keyValue ∈ l, keyValue.key ≠ k) :
    l.foldl (fun m keyValue => m.insert keyValue.key keyValue.value) m k = m k := by
  induction l generalizing m with
  | nil => rfl
  | cons a l ih =>
    rw [List.foldl_cons, ih _ (fun x hx => h x (List.mem_cons_of_mem a hx))]
    exact Mutation.insert_of_key_ne m a.key a.value k (h a (List.mem_cons_self a l))

theorem foldl_insert_isSome_of_isSome (l : List MutationEntry) (m : Mutation) (k : String)
    (h : (m k).isSome = true) :
    (l.foldl (fun m keyValue => m.insert keyValue.key keyValue.value) m k).isSome = true := by
  obtain ⟨b, hb⟩ := Option.isSome_iff_exists.1 h
  rw [foldl_insert_of_some l m k b hb]
  rfl

theorem foldl_insert_isSome_of_mem (l : List MutationEntry) (m : Mutation)
    (keyValue : MutationEntry) (h : keyValue ∈ l) :
    (l.foldl (fun m keyValue => m.insert keyValue.key keyValue.value) m keyValue.key).isSome
      = true := by
  induction l generalizing m with
  | nil => cases h
  | cons a l ih =>
    rw [List.foldl_cons]
    rcases List.mem_cons.1 h with rfl | hmem
    · exact foldl_insert_isSome_of_isSome l _ _ (Mutation.insert_key_isSome m _ _)
    · exact ih _ hmem

/-- C15: `requestMutation` touches only the keys of the request mutation list
of the entry, and `responseMutation` only those of its response mutation list.
A key that is not in the respective list has after the call the value (or the
absence) it had before, no key of the target is removed, and every key of the
respective list is present afterwards. For a constructed entry the two lists
hold the keys configured by the rule. -/
theorem mutation_frame (hu : HeaderUtility HeaderMatcher HeaderData HeaderMap)
    (rule : Config.Route HeaderMatcher) (e : RouteEntryImplBase HeaderData)
    (target : Mutation) (k : String) :
    (((∀ keyValue ∈ e.request_mutation_, keyValue.key ≠ k) →
        e.requestMutation target k = target k) ∧
      ((target k).isSome = true → (e.requestMutation target k).isSome = true) ∧
      (∀ keyValue ∈ e.request_mutation_,
        (e.requestMutation target keyValue.key).isSome = true)) ∧
    (((∀ keyValue ∈ e.response_mutation_, keyValue.key ≠ k) →
        e.responseMutation target k = target k) ∧
      ((target k).isSome = true → (e.responseMutation target k).isSome = true) ∧
      (∀ keyValue ∈ e.response_mutation_,
        (e.responseMutation target keyValue.key).isSome = true)) ∧
    (RouteEntryImplBase.new hu rule = .ok e →
      e.request_mutation_.map (fun x => x.key) = rule.request_mutation.map (fun x => x.key) ∧
      e.response_mutation_.map (fun x => x.key) =
        rule.response_mutation.map (fun x => x.key)) := by
  refine ⟨⟨?_, ?_, ?_⟩, ⟨?_, ?_, ?_⟩, ?_⟩
  · exact foldl_insert_of_not_mem e.request_mutation_ target k
  · exact foldl_insert_isSome_of_isSome e.request_mutation_ target k
  · intro keyValue h
    exact foldl_insert_isSome_of_mem e.request_mutation_ target keyValue h
  · exact foldl_insert_of_not_mem e.response_mutation_ target k
  · exact foldl_insert_isSome_of_isSome e.response_mutation_ target k
  · intro keyValue h
    exact foldl_insert_isSome_of_mem e.response_mutation_ target keyValue h
  · intro hnew
    obtain ⟨_, _, _, hreq, hresp, _⟩ := new_ok_members hu rule e hnew
    rw [hreq, hresp]
    simp only [List.map_map]
    exact ⟨rfl, rfl⟩

/-- Scenario: the entry with the mutation list `[(k, v1), (k, v2)]`, applied
to the target holding `k -> base`, leaves the key `other` absent and the key
`k` present. -/
theorem mutation_frame_witness :
    (∀ keyValue ∈ duplicateKeyEntry.request_mutation_, keyValue.key ≠ "other") ∧
    duplicateKeyEntry.requestMutation baselineTarget "other" = baselineTarget "other" ∧
    (baselineTarget "k").isSome = true ∧
    (duplicateKeyEntry.requestMutation baselineTarget "k").isSome = true ∧
    (∀ keyValue ∈ duplicateKeyEntry.response_mutation_, keyValue.key ≠ "other") ∧
    duplicateKeyEntry.responseMutation baselineTarget "other" = baselineTarget "other" ∧
    RouteEntryImplBase.new exampleHeaders duplicateKeyRule = .ok duplicateKeyEntry ∧
    duplicateKeyEntry.request_mutation_.map (fun x => x.key) =
      duplicateKeyRule.request_mutation.map (fun x => x.key) :=
  have hother : ∀ keyValue ∈ duplicateKeyEntry.request_mutation_, keyValue.key ≠ "other" := by
    intro keyValue h
    simp [duplicateKeyEntry] at h
    rcases h with rfl | rfl <;> decide
  have hother2 : ∀ keyValue ∈ duplicateKeyEntry.response_mutation_, keyValue.key ≠ "other" := by
    intro keyValue h
    simp [duplicateKeyEntry] at h
    rcases h with rfl | rfl <;> decide
  ⟨hother,
    (mutation_frame exampleHeaders duplicateKeyRule duplicateKeyEntry baselineTarget
      "other").1.1 hother,
    by decide,
    (mutation_frame exampleHeaders duplicateKeyRule duplicateKeyEntry baselineTarget
      "k").1.2.1 (by decide),
    hother2,
    (mutation_frame exampleHeaders duplicateKeyRule duplicateKeyEntry baselineTarget
      "other").2.1.1 hother2,
    rfl,
    ((mutation_frame exampleHeaders duplicateKeyRule duplicateKeyEntry baselineTarget
      "k").2.2 rfl).1⟩

/-- C16: a constructed entry carries a hash policy exactly when the route
action of its rule configures at least one hash-policy field, and that policy
is built from the configured fields; with zero hash-policy fields the entry
has no hash policy. -/
theorem hash_policy_iff_configured (hu : HeaderUtility HeaderMatcher HeaderData HeaderMap)
    (rule : Config.Route HeaderMatcher) (e : RouteEntryImplBase HeaderData)
    (hnew : RouteEntryImplBase.new hu rule = .ok e) :
    (e.hash_policy_.isSome = true ↔ 0 < rule.route.hash_policy.length) ∧
    (0 < rule.route.hash_policy.length → e.hash_policy_ = some ⟨rule.route.hash_policy⟩) ∧
    (rule.route.hash_policy.length = 0 → e.hash_policy_ = none) := by
  obtain ⟨_, _, _, _, _, hhash⟩ := new_ok_members hu rule e hnew
  rw [hhash]
  by_cases hpos : 0 < rule.route.hash_policy.length
  · rw [if_pos hpos]
    exact ⟨⟨fun _ => hpos, fun _ => rfl⟩, fun _ => rfl, fun h0 => by omega⟩
  · rw [if_neg hpos]
    exact ⟨⟨fun h => (by cases h), fun h => absurd h hpos⟩, fun h => absurd h hpos,
      fun _ => rfl⟩

/-- Scenario: the rule with the hash-policy field `user` gives an entry with a
hash policy, and the rule without hash-policy fields gives one without. -/
theorem hash_policy_iff_configured_witness :
    (RouteEntryImplBase.new exampleHeaders hashPolicyRule = .ok hashPolicyEntry ∧
      (hashPolicyEntry.hash_policy_.isSome = true ↔ 0 < hashPolicyRule.route.hash_policy.length) ∧
      hashPolicyEntry.hash_policy_ = some ⟨["user"]⟩) ∧
    (RouteEntryImplBase.new exampleHeaders duplicateKeyRule = .ok duplicateKeyEntry ∧
      duplicateKeyEntry.hash_policy_ = none) :=
  ⟨⟨rfl, (hash_policy_iff_configured exampleHeaders hashPolicyRule hashPolicyEntry rfl).1,
      (hash_policy_iff_configured exampleHeaders hashPolicyRule hashPolicyEntry rfl).2.1
        (by decide)⟩,
    ⟨rfl, (hash_policy_iff_configured exampleHeaders duplicateKeyRule duplicateKeyEntry rfl).2.2
      rfl⟩⟩

end Frame

end MetaProtocolProxy
